import Mathlib

/-!
# Verification of the Rotonde client protocol/state layer

Shallow embedding of `src/Rotonde-Client-babel.js`:

* the definitions store (`newDefinitionsStore`),
* the handler manager (`newHandlerManager`) with call-count limiting and
  first-added / last-removed lifecycle hooks,
* the client orchestrator (`module.exports`): connect / open replay,
  inbound packet routing (`handleMessage`), `onReady`, `sendEvent`/`sendAction`,
* the promise layer: `makePromise` (the spec's `awaitOnce`) and `bootstrap`,
  embedded as explicit transition systems over input traces.

JavaScript idioms are made explicit:

* `handlers = new Map()` is only ever accessed with plain property syntax
  (`handlers[identifier]`), so the handler table is modelled as the object's
  own property list (`HM.props`); the `Map`'s internal key collection —
  which `detachAll` iterates via `handlers.keys()` — is a separate field
  (`HM.mapData`) that no operation ever populates (there is no `Map.set`
  call anywhere in the module).
* Assigning `handlers[identifier] = undefined` keeps the property key
  present (a property value of `none` below); no key is ever deleted.
* Call counts are JS numbers used only with `-1`, small positives,
  decrement and comparison against 0 — modelled as `Int`.
* Fallible code (property access on `undefined`) returns `Except JsError`.
-/

namespace Rotonde

/-- A JavaScript runtime error (the only kind this module can raise is a
`TypeError` from dereferencing `undefined`). -/
inductive JsError
  | typeError
deriving DecidableEq

/-- One field of a Definition. Only `name` is inspected by the code
(`_.uniq(..., field => field.name)`); all other attributes of the field
object are opaque and modelled by `attrs`. -/
structure Field where
  name : String
  attrs : Nat
deriving DecidableEq

/-- A Definition record `{identifier, type, fields, ...}`. The code reads
`identifier`, `type` and `fields`; anything else a caller may have put on
the record is opaque and modelled by `extra` ("the rest of the stored
record"). -/
structure Definition where
  identifier : String
  type : String
  fields : List Field
  extra : Nat
deriving DecidableEq

/-- lodash `_.uniq(array)` (no iteratee): build the result left to right,
skipping values already included (`seen` is the set of values kept so far, in
order). -/
def uniqFirstAux [DecidableEq α] (seen : List α) : List α → List α
  | [] => []
  | x :: xs =>
    if x ∈ seen then uniqFirstAux seen xs
    else x :: uniqFirstAux (seen ++ [x]) xs

/-- lodash `_.uniq(array)`: keep the first occurrence of each value. -/
def uniqFirst [DecidableEq α] (l : List α) : List α :=
  uniqFirstAux [] l

/-- lodash `_.union(a, b)` = `_.uniq(a ++ b)` (first occurrence kept). -/
def lodashUnion [DecidableEq α] (a b : List α) : List α :=
  uniqFirst (a ++ b)

/-- lodash `_.uniq(fields, field => field.name)`: keep the first field
carrying each name (`seen` is the set of names kept so far). -/
def uniqByNameAux (seen : List String) : List Field → List Field
  | [] => []
  | f :: fs =>
    if f.name ∈ seen then uniqByNameAux seen fs
    else f :: uniqByNameAux (seen ++ [f.name]) fs

/-- lodash `_.uniq(fields, field => field.name)`. -/
def uniqByName (l : List Field) : List Field :=
  uniqByNameAux [] l

/-! ## DefinitionStore (`newDefinitionsStore`)

The store owns the array `definitions`; the index
`definitionsByIdentifier = _.indexBy(definitions, 'identifier')` is rebuilt
wholesale after every mutation, so it is modelled as the derived lookup
`getDefinition` (for duplicate identifiers `_.indexBy` keeps the last
occurrence, hence the `reverse`). -/

/-- `getDefinition(identifier)`: the index lookup
`definitionsByIdentifier[identifier]` (`undefined` — here `none` — when
absent; the code only logs in that case, it does not throw). -/
def getDefinition (definitions : List Definition) (identifier : String) :
    Option Definition :=
  definitions.reverse.find? (fun d => d.identifier = identifier)

/-- `_.indexOf(definitions, d)` for the record `d` obtained from the index:
first position of `d` in the array (reference equality in JS; `d` is an
element of the array, so the first structurally equal element here). -/
def jsIndexOf (definitions : List Definition) (d : Definition) : Nat :=
  definitions.findIdx (fun x => x = d)

/-- `addDefinition(definition)` (the spec's `put`): if a definition with the
same identifier is stored, overwrite it in place with the new record whose
`fields` become `_.uniq(_.union(old.fields, new.fields), f => f.name)`;
otherwise push the new record. -/
def addDefinition (definitions : List Definition) (definition : Definition) :
    List Definition :=
  match getDefinition definitions definition.identifier with
  | some d =>
    let index := jsIndexOf definitions d
    let fields := uniqByName (lodashUnion d.fields definition.fields)
    definitions.set index { definition with fields := fields }
  | none => definitions ++ [definition]

/-- SameValueZero comparison of a stored `Definition` object against the
`identifier` string, as performed by `_.indexOf(definitions, identifier)`
inside `removeDefinition`: an object never equals a string. -/
def sameValueZeroDefString (_ : Definition) (_ : String) : Bool :=
  false

/-- `removeDefinition(identifier)`: looks the *identifier string* up in the
array of Definition *objects* (`_.indexOf(definitions, identifier)`) and
splices only when found (`index < 0` returns early). -/
def removeDefinition (definitions : List Definition) (identifier : String) :
    List Definition :=
  match definitions.findIdx? (fun d => sameValueZeroDefString d identifier) with
  | some index => definitions.eraseIdx index
  | none => definitions

/-! ### Merging lemmas for claim C2 -/

/-- Deduplicating by full value before deduplicating by name is redundant:
a structural duplicate always carries a duplicate name. Generalised over the
accumulators, with the invariant that every value already skipped by the
structural pass has its name skipped by the name pass. -/
theorem uniqByNameAux_uniqFirstAux (l : List Field) :
    ∀ (seen : List Field) (ns : List String),
      (∀ a ∈ seen, a.name ∈ ns) →
      uniqByNameAux ns (uniqFirstAux seen l) = uniqByNameAux ns l := by
  induction l with
  | nil => intro seen ns _; rfl
  | cons f fs ih =>
    intro seen ns hinv
    by_cases hfs : f ∈ seen
    · simp only [uniqFirstAux, if_pos hfs, uniqByNameAux,
        if_pos (hinv f hfs)]
      exact ih seen ns hinv
    · simp only [uniqFirstAux, if_neg hfs]
      by_cases hns : f.name ∈ ns
      · simp only [uniqByNameAux, if_pos hns]
        refine ih (seen ++ [f]) ns ?_
        intro a ha
        rcases List.mem_append.mp ha with h1 | h1
        · exact hinv a h1
        · have : a = f := by simpa using h1
          rw [this]; exact hns
      · simp only [uniqByNameAux, if_neg hns]
        congr 1
        refine ih (seen ++ [f]) (ns ++ [f.name]) ?_
        intro a ha
        rcases List.mem_append.mp ha with h1 | h1
        · exact List.mem_append_left _ (hinv a h1)
        · have : a = f := by simpa using h1
          rw [this]; exact List.mem_append_right _ (by simp)

/-- Value-level dedup before name-level dedup is the identity transformation. -/
theorem uniqByName_uniqFirst (l : List Field) :
    uniqByName (uniqFirst l) = uniqByName l :=
  uniqByNameAux_uniqFirstAux l [] [] (by simp)

/-- Claim C2 — `put(D1); put(D2)` with a shared identifier leaves exactly one
stored Definition: the record supplied by `D2` whose field list is the union
of `D1`'s and `D2`'s fields deduplicated by name, `D1`'s fields taking
precedence (first occurrence per name in `D1.fields ++ D2.fields`). -/
theorem c2_put_merge (D1 D2 : Definition)
    (h : D1.identifier = D2.identifier) :
    addDefinition (addDefinition [] D1) D2 =
      [{ D2 with fields := uniqByName (D1.fields ++ D2.fields) }] ∧
    getDefinition (addDefinition (addDefinition [] D1) D2) D2.identifier =
      some { D2 with fields := uniqByName (D1.fields ++ D2.fields) } := by
  have h1 : addDefinition [] D1 = [D1] := rfl
  have h2 : addDefinition [D1] D2 =
      [{ D2 with fields := uniqByName (D1.fields ++ D2.fields) }] := by
    have hg : getDefinition [D1] D2.identifier = some D1 := by
      simp [getDefinition, h]
    have hj : jsIndexOf [D1] D1 = 0 := by
      simp [jsIndexOf, List.findIdx_cons]
    have hu : uniqByName (lodashUnion D1.fields D2.fields) =
        uniqByName (D1.fields ++ D2.fields) := by
      rw [lodashUnion, uniqByName_uniqFirst]
    simp [addDefinition, hg, hj, hu]
  refine ⟨by rw [h1, h2], ?_⟩
  rw [h1, h2]
  simp [getDefinition]

/-- Witness for C2 at concrete definitions sharing identifier `"a"`: the
colliding field name `"x"` keeps `D1`'s attributes. -/
theorem c2_put_merge_witness :
    addDefinition (addDefinition [] ⟨"a", "event", [⟨"x", 1⟩, ⟨"y", 2⟩], 7⟩)
        ⟨"a", "action", [⟨"x", 9⟩, ⟨"z", 3⟩], 8⟩ =
      [⟨"a", "action", [⟨"x", 1⟩, ⟨"y", 2⟩, ⟨"z", 3⟩], 8⟩] :=
  ((c2_put_merge ⟨"a", "event", [⟨"x", 1⟩, ⟨"y", 2⟩], 7⟩
    ⟨"a", "action", [⟨"x", 9⟩, ⟨"z", 3⟩], 8⟩ rfl).1).trans (by decide)

/-! ## Claim C5: `removeDefinition` never removes anything -/

/-- Claim C5 (code defect) — `remove(identifier)` is an unconditional no-op:
the lookup compares stored Definition objects against the identifier string
(never equal), so `put` followed by `remove` leaves the definition stored
and `get` still finds it. -/
theorem c5_remove_noop :
    (∀ (definitions : List Definition) (identifier : String),
      removeDefinition definitions identifier = definitions) ∧
    (∀ d : Definition,
      getDefinition (removeDefinition (addDefinition [] d) d.identifier)
        d.identifier = some d) := by
  constructor
  · intro definitions identifier
    rw [removeDefinition]
    rw [show definitions.findIdx?
        (fun d => sameValueZeroDefString d identifier) = none by
      simp [List.findIdx?_eq_none_iff, sameValueZeroDefString]]
  · intro d
    rw [show addDefinition [] d = [d] from rfl]
    rw [removeDefinition]
    simp [List.findIdx?_eq_none_iff, sameValueZeroDefString, getDefinition]

/-! ## Packets and observable events

A Packet is the single envelope `{type, payload}`; the payloads used by the
code carry an identifier, optional data and (for `def`/`undef`) a Definition
record. Callbacks are opaque function references, modelled as `Nat` tokens
compared by reference (decidable equality). -/

/-- The wire envelope `{type, payload}`. For `event`/`action`/`sub`/`unsub`
the payload is `{identifier, data?}`; for `def`/`undef` it is the Definition
itself (carried in `pdef`). -/
structure Packet where
  ptype : String
  identifier : String
  data : Nat
  pdef : Option Definition
deriving DecidableEq

/-- Observable happenings, in program order: a callback invocation, a
lifecycle-hook firing, a queued ready callback running, an outbound packet
send. -/
inductive Ev
  | invoke (cb : Nat)
  | firstAdded (identifier : String)
  | lastRemoved (identifier : String)
  | readyCall (cb : Nat)
  | sent (p : Packet)
deriving DecidableEq

/-! ## HandlerRegistry (`newHandlerManager`)

`handlers = new Map()`, but every read and write in the module uses plain
property syntax `handlers[identifier]`, never `Map.get`/`Map.set`. So:

* `props` is the object's own property list, in insertion order: a key with
  value `some h` holds the live entry array `h`; a key with value `none`
  was emptied (`handlers[identifier] = undefined`) but *remains present* —
  `_.keys(handlers)` (used by `registeredIdentifiers` and `each`) still
  returns it;
* `mapData` is the `Map`'s internal key collection, which only
  `Map.prototype.set` could populate — it is never written, and is what
  `handlers.keys()` in `detachAll` iterates.

An entry `[callback, callCount]` is a pair; `callCount = -1` is the
"permanent" sentinel (`attach` defaults `undefined` to `-1`). -/

/-- One registered handler entry `[callback, callCount]`. -/
abbrev Entry := Nat × Int

/-- The handler manager's state. -/
structure HM where
  props : List (String × Option (List Entry))
  mapData : List String
deriving DecidableEq

/-- A fresh manager: no properties, empty `Map` data. -/
def HM.empty : HM :=
  ⟨[], []⟩

/-- Find the property slot for a key in a JS object's property list. -/
def lookupProp (identifier : String) :
    List (String × Option (List Entry)) → Option (Option (List Entry))
  | [] => none
  | (k, v) :: rest =>
    if k = identifier then some v else lookupProp identifier rest

/-- Property read `handlers[identifier]`: `undefined` (`none`) both when the
key is absent and when its stored value is `undefined`. -/
def getProp (m : HM) (identifier : String) : Option (List Entry) :=
  match lookupProp identifier m.props with
  | some v => v
  | none => none

/-- Write a property value in a JS object's property list: an existing key is
updated in place (insertion order kept), a new key is appended. -/
def setPropsList (identifier : String) (v : Option (List Entry)) :
    List (String × Option (List Entry)) → List (String × Option (List Entry))
  | [] => [(identifier, v)]
  | (k, w) :: rest =>
    if k = identifier then (k, v) :: rest
    else (k, w) :: setPropsList identifier v rest

/-- Property write `handlers[identifier] = v`. -/
def setProp (m : HM) (identifier : String) (v : Option (List Entry)) : HM :=
  { m with props := setPropsList identifier v m.props }

/-- `registeredIdentifiers()` = `each`'s iteration domain =
`_.keys(handlers)`: every own property key, *including* keys whose value was
reset to `undefined` when their last entry was removed. -/
def registeredIdentifiers (m : HM) : List String :=
  m.props.map Prod.fst

/-- `detachAtIndex(identifier, index)`: splice the entry out of the live
array; if the array is now empty, set the property to `undefined` and fire
the last-removed hook. (The `index--` in the source decrements a local
variable after `splice` already received the value, so it has no effect.) -/
def detachAtIndex (m : HM) (identifier : String) (index : Nat) :
    HM × List Ev :=
  let h := (getProp m identifier).getD []
  let h' := h.eraseIdx index
  if h'.length = 0 then
    (setProp m identifier none, [Ev.lastRemoved identifier])
  else
    (setProp m identifier (some h'), [])

/-- `attach(identifier, callback, callCount)`; `callCount == undefined`
defaults to `-1`. When the property reads as `undefined` the code first
installs `[]`, fires the first-added hook, then pushes the entry. -/
def attach (m : HM) (identifier : String) (callback : Nat)
    (callCount : Option Int) : HM × List Ev :=
  let c := callCount.getD (-1)
  match getProp m identifier with
  | none => (setProp m identifier (some [(callback, c)]),
      [Ev.firstAdded identifier])
  | some h => (setProp m identifier (some (h ++ [(callback, c)])), [])

/-- `attachOnce(identifier, callback)` = `attach` with `callCount = 1`. -/
def attachOnce (m : HM) (identifier : String) (callback : Nat) :
    HM × List Ev :=
  attach m identifier callback (some 1)

/-- The loop body of `callHandlers`, viewed through the loop index `i`: the
live array is `pre ++ rest` with `pre` the `i` already-visited entries and
`rest` the entries from index `i` on. A positive count is decremented before
the invocation; on reaching 0 the entry is spliced out at `i`
(`detachAtIndex`) — the array becomes `pre ++ rest`, the hook fires if that
is empty — and the subsequent `i++` then *skips* the element that shifted
into index `i` (it moves into `pre` unprocessed). Returns the final property
value (`none` when the array emptied) and the events in program order. -/
def runEntries (identifier : String) (pre : List Entry) :
    List Entry → Option (List Entry) × List Ev
  | [] => (some pre, [])
  | (cb, c) :: rest =>
    if c > 0 then
      if c - 1 = 0 then
        match rest with
        | [] =>
          if pre.isEmpty then
            (none, [Ev.lastRemoved identifier, Ev.invoke cb])
          else (some pre, [Ev.invoke cb])
        | skip :: rest' =>
          let r := runEntries identifier (pre ++ [skip]) rest'
          (r.1, Ev.invoke cb :: r.2)
      else
        let r := runEntries identifier (pre ++ [(cb, c - 1)]) rest
        (r.1, Ev.invoke cb :: r.2)
    else
      let r := runEntries identifier (pre ++ [(cb, c)]) rest
      (r.1, Ev.invoke cb :: r.2)

/-- `callHandlers(identifier, param)` (the spec's `dispatch`): nothing when
the property reads `undefined`; otherwise run the indexed loop over the live
array. (The dispatched `param` is passed unchanged to every callback, so it
is not part of the state.) -/
def callHandlers (m : HM) (identifier : String) : HM × List Ev :=
  match getProp m identifier with
  | some h =>
    let r := runEntries identifier [] h
    (setProp m identifier r.1, r.2)
  | none => (m, [])

/-- The loop body of `detach`, in the same indexed view as `runEntries`: a
matching entry is spliced out at `i` (`detachAtIndex`, firing the hook if
the array empties) and the following `i++` skips the shifted element; a
non-matching entry moves into `pre`. -/
def detachRun (identifier : String) (callback : Nat) (pre : List Entry) :
    List Entry → Option (List Entry) × List Ev
  | [] => (some pre, [])
  | (cb, c) :: rest =>
    if cb = callback then
      match rest with
      | [] =>
        if pre.isEmpty then (none, [Ev.lastRemoved identifier])
        else (some pre, [])
      | skip :: rest' => detachRun identifier callback (pre ++ [skip]) rest'
    else detachRun identifier callback (pre ++ [(cb, c)]) rest

/-- `detach(identifier, callback)`. -/
def detach (m : HM) (identifier : String) (callback : Nat) : HM × List Ev :=
  match getProp m identifier with
  | some h =>
    let r := detachRun identifier callback [] h
    (setProp m identifier r.1, r.2)
  | none => (m, [])

/-- The inner loop of `detachAll` over one identifier, in the indexed view:
`for (i = 0; i < handlers[identifier].length; i++) detachAtIndex(identifier, i)`.
Each pass splices index `i` and then increments `i`, so the element shifted
into `i` is skipped; when the splice empties the array the property becomes
`undefined` and the *loop condition itself* then throws a `TypeError`
(`.length` of `undefined`). -/
def detachAllInner (identifier : String) (pre : List Entry) :
    List Entry → Except JsError (Option (List Entry) × List Ev)
  | [] => .ok (some pre, [])
  | _x :: rest =>
    match pre, rest with
    | [], [] => .error .typeError
    | _, [] => .ok (some pre, [])
    | _, skip :: rest' => detachAllInner identifier (pre ++ [skip]) rest'

/-- `detachAll` iterates `handlers.keys()[Symbol.iterator]()` — the `Map`'s
own key collection (`mapData`), not the object's property keys. The babel
try/finally re-throws any error raised inside the loop. -/
def detachAllGo (m : HM) : List String → Except JsError (HM × List Ev)
  | [] => .ok (m, [])
  | identifier :: ids =>
    match getProp m identifier with
    | none => .error .typeError
    | some h =>
      match detachAllInner identifier [] h with
      | .error e => .error e
      | .ok (v, evs) =>
        match detachAllGo (setProp m identifier v) ids with
        | .error e => .error e
        | .ok (m', evs') => .ok (m', evs ++ evs')

/-- `detachAll()`. -/
def detachAll (m : HM) : Except JsError (HM × List Ev) :=
  detachAllGo m m.mapData

/-- The callbacks invoked during a run, in order. -/
def invokedOf (evs : List Ev) : List Nat :=
  evs.filterMap (fun e =>
    match e with
    | Ev.invoke cb => some cb
    | _ => none)

@[simp]
theorem invokedOf_nil : invokedOf [] = [] :=
  rfl

@[simp]
theorem invokedOf_invoke (cb : Nat) (evs : List Ev) :
    invokedOf (Ev.invoke cb :: evs) = cb :: invokedOf evs :=
  rfl

@[simp]
theorem invokedOf_firstAdded (identifier : String) (evs : List Ev) :
    invokedOf (Ev.firstAdded identifier :: evs) = invokedOf evs :=
  rfl

@[simp]
theorem invokedOf_lastRemoved (identifier : String) (evs : List Ev) :
    invokedOf (Ev.lastRemoved identifier :: evs) = invokedOf evs :=
  rfl

/-! ### Property-list lemmas -/

@[simp]
theorem lookupProp_setPropsList_self (identifier : String)
    (v : Option (List Entry)) (props : List (String × Option (List Entry))) :
    lookupProp identifier (setPropsList identifier v props) = some v := by
  induction props with
  | nil => simp [setPropsList, lookupProp]
  | cons kv rest ih =>
    obtain ⟨k, w⟩ := kv
    by_cases hk : k = identifier
    · simp [setPropsList, lookupProp, hk]
    · simp [setPropsList, lookupProp, hk, ih]

theorem lookupProp_setPropsList_ne (identifier id' : String)
    (hne : id' ≠ identifier) (v : Option (List Entry))
    (props : List (String × Option (List Entry))) :
    lookupProp id' (setPropsList identifier v props) =
      lookupProp id' props := by
  have hne' : ¬identifier = id' := fun h => hne h.symm
  induction props with
  | nil => simp [setPropsList, lookupProp, hne']
  | cons kv rest ih =>
    obtain ⟨k, w⟩ := kv
    by_cases hk : k = identifier
    · subst hk
      simp [setPropsList, lookupProp, hne']
    · simp only [setPropsList, if_neg hk, lookupProp]
      by_cases hk' : k = id'
      · simp [hk']
      · simp [hk', ih]

@[simp]
theorem getProp_setProp_self (m : HM) (identifier : String)
    (v : Option (List Entry)) :
    getProp (setProp m identifier v) identifier = v := by
  simp [getProp, setProp]

theorem getProp_setProp_ne (m : HM) (identifier id' : String)
    (hne : id' ≠ identifier) (v : Option (List Entry)) :
    getProp (setProp m identifier v) id' = getProp m id' := by
  simp [getProp, setProp, lookupProp_setPropsList_ne identifier id' hne]

theorem lookupProp_isSome_iff (identifier : String)
    (props : List (String × Option (List Entry))) :
    (lookupProp identifier props).isSome = true ↔
      identifier ∈ props.map Prod.fst := by
  induction props with
  | nil => simp [lookupProp]
  | cons kv rest ih =>
    obtain ⟨k, w⟩ := kv
    by_cases hk : k = identifier
    · simp [lookupProp, hk]
    · simp only [lookupProp, if_neg hk, List.map_cons, List.mem_cons, ih]
      constructor
      · exact Or.inr
      · rintro (h | h)
        · exact absurd h.symm hk
        · exact h

theorem getProp_some_mem_keys (m : HM) (identifier : String)
    (h : List Entry) (hg : getProp m identifier = some h) :
    identifier ∈ registeredIdentifiers m := by
  rw [registeredIdentifiers, ← lookupProp_isSome_iff]
  rw [getProp] at hg
  cases hl : lookupProp identifier m.props with
  | none => rw [hl] at hg; cases hg
  | some v => simp

theorem mem_keys_setPropsList (identifier id' : String)
    (v : Option (List Entry))
    (props : List (String × Option (List Entry))) :
    id' ∈ (setPropsList identifier v props).map Prod.fst ↔
      id' ∈ props.map Prod.fst ∨ id' = identifier := by
  induction props with
  | nil => simp [setPropsList]
  | cons kv rest ih =>
    obtain ⟨k, w⟩ := kv
    by_cases hk : k = identifier
    · subst hk
      have hred : setPropsList k v ((k, w) :: rest) = (k, v) :: rest := by
        simp [setPropsList]
      rw [hred]
      simp only [List.map_cons, List.mem_cons]
      tauto
    · simp only [setPropsList, if_neg hk, List.map_cons, List.mem_cons]
      rw [ih]
      tauto

theorem mem_keys_setProp (m : HM) (identifier id' : String)
    (v : Option (List Entry)) :
    id' ∈ registeredIdentifiers (setProp m identifier v) ↔
      id' ∈ registeredIdentifiers m ∨ id' = identifier :=
  mem_keys_setPropsList identifier id' v m.props

/-! ### `runEntries` and `detachRun` lemmas -/

/-- Branch unfolding: a once-entry that is the last element. -/
theorem runEntries_last_once (identifier : String) (pre : List Entry)
    (cb : Nat) (c : Int) (hc : c > 0) (hc1 : c - 1 = 0) :
    runEntries identifier pre [(cb, c)] =
      if pre.isEmpty then
        (none, [Ev.lastRemoved identifier, Ev.invoke cb])
      else (some pre, [Ev.invoke cb]) := by
  rw [runEntries.eq_def]
  simp [hc, hc1]

/-- Branch unfolding: a once-entry followed by further entries — the entry is
spliced out and the following entry is skipped. -/
theorem runEntries_once_skip (identifier : String) (pre : List Entry)
    (cb : Nat) (c : Int) (skip : Entry) (rest' : List Entry)
    (hc : c > 0) (hc1 : c - 1 = 0) :
    runEntries identifier pre ((cb, c) :: skip :: rest') =
      ((runEntries identifier (pre ++ [skip]) rest').1,
        Ev.invoke cb :: (runEntries identifier (pre ++ [skip]) rest').2) := by
  rw [runEntries.eq_def]
  simp [hc, hc1]

/-- Branch unfolding: a finite entry with more than one call left is
decremented and kept. -/
theorem runEntries_dec (identifier : String) (pre : List Entry)
    (cb : Nat) (c : Int) (rest : List Entry)
    (hc : c > 0) (hc1 : ¬c - 1 = 0) :
    runEntries identifier pre ((cb, c) :: rest) =
      ((runEntries identifier (pre ++ [(cb, c - 1)]) rest).1,
        Ev.invoke cb ::
          (runEntries identifier (pre ++ [(cb, c - 1)]) rest).2) := by
  rw [runEntries.eq_def]
  simp [hc, hc1]

/-- Branch unfolding: a permanent entry (count not positive) is kept as is. -/
theorem runEntries_perm (identifier : String) (pre : List Entry)
    (cb : Nat) (c : Int) (rest : List Entry) (hc : ¬c > 0) :
    runEntries identifier pre ((cb, c) :: rest) =
      ((runEntries identifier (pre ++ [(cb, c)]) rest).1,
        Ev.invoke cb :: (runEntries identifier (pre ++ [(cb, c)]) rest).2) := by
  rw [runEntries.eq_def]
  simp [hc]

/-- Branch unfolding: `detach` matching the last element. -/
theorem detachRun_match_last (identifier : String) (callback : Nat)
    (pre : List Entry) (c : Int) :
    detachRun identifier callback pre [(callback, c)] =
      if pre.isEmpty then (none, [Ev.lastRemoved identifier])
      else (some pre, []) := by
  rw [detachRun.eq_def]
  simp

/-- Branch unfolding: `detach` matching a non-final element — spliced, and
the following entry skipped. -/
theorem detachRun_match_skip (identifier : String) (callback : Nat)
    (pre : List Entry) (c : Int) (skip : Entry) (rest' : List Entry) :
    detachRun identifier callback pre ((callback, c) :: skip :: rest') =
      detachRun identifier callback (pre ++ [skip]) rest' := by
  rw [detachRun.eq_def]
  simp

/-- Branch unfolding: `detach` passing over a non-matching element. -/
theorem detachRun_nomatch (identifier : String) (callback : Nat)
    (pre : List Entry) (cb : Nat) (c : Int) (rest : List Entry)
    (hcb : ¬cb = callback) :
    detachRun identifier callback pre ((cb, c) :: rest) =
      detachRun identifier callback (pre ++ [(cb, c)]) rest := by
  rw [detachRun.eq_def]
  simp [hcb]

/-- Dispatch invokes a subsequence of the entries present at its start, in
attachment order. -/
theorem invokedOf_runEntries_sublist (identifier : String)
    (pre rest : List Entry) :
    List.Sublist (invokedOf (runEntries identifier pre rest).2)
      (rest.map Prod.fst) := by
  induction pre, rest using runEntries.induct identifier with
  | case1 pre => simp [runEntries]
  | case2 pre cb c hc hc1 hpre =>
    simp [runEntries_last_once identifier pre cb c hc hc1, hpre]
  | case3 pre cb c hc hc1 hpre =>
    simp [runEntries_last_once identifier pre cb c hc hc1, hpre]
  | case4 pre cb c hc hc1 skip rest' ih =>
    rw [runEntries_once_skip identifier pre cb c skip rest' hc hc1]
    simp only [invokedOf_invoke, List.map_cons]
    exact List.Sublist.cons₂ cb (List.Sublist.cons skip.1 ih)
  | case5 pre cb c rest hc hc1 ih =>
    rw [runEntries_dec identifier pre cb c rest hc hc1]
    simp only [invokedOf_invoke, List.map_cons]
    exact List.Sublist.cons₂ cb ih
  | case6 pre cb c rest hc ih =>
    rw [runEntries_perm identifier pre cb c rest hc]
    simp only [invokedOf_invoke, List.map_cons]
    exact List.Sublist.cons₂ cb ih

/-- When no entry holds exactly one remaining call, dispatch invokes every
entry present at its start, in order, exactly once. -/
theorem invokedOf_runEntries_no_once (identifier : String)
    (pre rest : List Entry) :
    (∀ e ∈ rest, e.2 ≠ 1) →
    invokedOf (runEntries identifier pre rest).2 = rest.map Prod.fst := by
  induction pre, rest using runEntries.induct identifier with
  | case1 pre => intro _; simp [runEntries]
  | case2 pre cb c hc hc1 hpre =>
    intro hno; exact absurd (by omega : c = 1) (hno (cb, c) (by simp))
  | case3 pre cb c hc hc1 hpre =>
    intro hno; exact absurd (by omega : c = 1) (hno (cb, c) (by simp))
  | case4 pre cb c hc hc1 skip rest' ih =>
    intro hno; exact absurd (by omega : c = 1) (hno (cb, c) (by simp))
  | case5 pre cb c rest hc hc1 ih =>
    intro hno
    have ihh := ih (fun e he => hno e (List.mem_cons_of_mem _ he))
    rw [runEntries_dec identifier pre cb c rest hc hc1]
    simp [ihh]
  | case6 pre cb c rest hc ih =>
    intro hno
    have ihh := ih (fun e he => hno e (List.mem_cons_of_mem _ he))
    rw [runEntries_perm identifier pre cb c rest hc]
    simp [ihh]

/-- Every event a dispatch emits is an invocation or the last-removed hook
for the dispatched identifier. -/
theorem runEntries_events_shape (identifier : String)
    (pre rest : List Entry) :
    ∀ e ∈ (runEntries identifier pre rest).2,
      (∃ cb, e = Ev.invoke cb) ∨ e = Ev.lastRemoved identifier := by
  induction pre, rest using runEntries.induct identifier with
  | case1 pre => simp [runEntries]
  | case2 pre cb c hc hc1 hpre =>
    intro e he
    rw [runEntries_last_once identifier pre cb c hc hc1] at he
    simp [hpre] at he
    rcases he with h | h
    · exact Or.inr h
    · exact Or.inl ⟨cb, h⟩
  | case3 pre cb c hc hc1 hpre =>
    intro e he
    rw [runEntries_last_once identifier pre cb c hc hc1] at he
    simp [hpre] at he
    exact Or.inl ⟨cb, he⟩
  | case4 pre cb c hc hc1 skip rest' ih =>
    intro e he
    rw [runEntries_once_skip identifier pre cb c skip rest' hc hc1] at he
    simp at he
    rcases he with h | h
    · exact Or.inl ⟨cb, h⟩
    · exact ih e h
  | case5 pre cb c rest hc hc1 ih =>
    intro e he
    rw [runEntries_dec identifier pre cb c rest hc hc1] at he
    simp at he
    rcases he with h | h
    · exact Or.inl ⟨cb, h⟩
    · exact ih e h
  | case6 pre cb c rest hc ih =>
    intro e he
    rw [runEntries_perm identifier pre cb c rest hc] at he
    simp at he
    rcases he with h | h
    · exact Or.inl ⟨cb, h⟩
    · exact ih e h

/-- The last-removed hook fires during a dispatch exactly when the entry
array empties (the final property value becomes `undefined`), and then
exactly once. -/
theorem count_lastRemoved_runEntries (identifier : String)
    (pre rest : List Entry) :
    (runEntries identifier pre rest).2.count (Ev.lastRemoved identifier) =
      if (runEntries identifier pre rest).1 = none then 1 else 0 := by
  induction pre, rest using runEntries.induct identifier with
  | case1 pre => simp [runEntries]
  | case2 pre cb c hc hc1 hpre =>
    rw [runEntries_last_once identifier pre cb c hc hc1]
    simp [hpre, List.count_cons]
  | case3 pre cb c hc hc1 hpre =>
    rw [runEntries_last_once identifier pre cb c hc hc1]
    simp [hpre, List.count_cons]
  | case4 pre cb c hc hc1 skip rest' ih =>
    rw [runEntries_once_skip identifier pre cb c skip rest' hc hc1]
    simpa [List.count_cons] using ih
  | case5 pre cb c rest hc hc1 ih =>
    rw [runEntries_dec identifier pre cb c rest hc hc1]
    simpa [List.count_cons] using ih
  | case6 pre cb c rest hc ih =>
    rw [runEntries_perm identifier pre cb c rest hc]
    simpa [List.count_cons] using ih

/-- A dispatch loop never returns the live (non-`undefined`) empty array
unless it started from one. -/
theorem runEntries_fst_ne_some_nil (identifier : String)
    (pre rest : List Entry) :
    pre ≠ [] ∨ rest ≠ [] → (runEntries identifier pre rest).1 ≠ some [] := by
  induction pre, rest using runEntries.induct identifier with
  | case1 pre =>
    intro hor
    rcases hor with h | h
    · simp [runEntries, h]
    · exact absurd rfl h
  | case2 pre cb c hc hc1 hpre =>
    intro _
    rw [runEntries_last_once identifier pre cb c hc hc1]
    simp [hpre]
  | case3 pre cb c hc hc1 hpre =>
    intro _
    rw [runEntries_last_once identifier pre cb c hc hc1]
    simp only [List.isEmpty_iff] at hpre
    simp [hpre]
  | case4 pre cb c hc hc1 skip rest' ih =>
    intro _
    rw [runEntries_once_skip identifier pre cb c skip rest' hc hc1]
    exact ih (Or.inl (by simp))
  | case5 pre cb c rest hc hc1 ih =>
    intro _
    rw [runEntries_dec identifier pre cb c rest hc hc1]
    exact ih (Or.inl (by simp))
  | case6 pre cb c rest hc ih =>
    intro _
    rw [runEntries_perm identifier pre cb c rest hc]
    exact ih (Or.inl (by simp))

/-- `detach`'s loop only ever emits the last-removed hook, exactly when and
only when the entry array empties. -/
theorem count_lastRemoved_detachRun (identifier : String) (callback : Nat)
    (pre rest : List Entry) :
    (detachRun identifier callback pre rest).2.count
        (Ev.lastRemoved identifier) =
      if (detachRun identifier callback pre rest).1 = none then 1 else 0 := by
  induction pre, rest using detachRun.induct identifier callback with
  | case1 pre => simp [detachRun]
  | case2 pre c hpre =>
    rw [detachRun_match_last identifier callback pre c]
    simp [hpre]
  | case3 pre c hpre =>
    rw [detachRun_match_last identifier callback pre c]
    simp [hpre]
  | case4 pre c skip rest' ih =>
    rw [detachRun_match_skip identifier callback pre c skip rest']
    exact ih
  | case5 pre cb c rest hcb ih =>
    rw [detachRun_nomatch identifier callback pre cb c rest hcb]
    exact ih

/-- `detach`'s loop emits no invocation and no first-added hook. -/
theorem detachRun_events_shape (identifier : String) (callback : Nat)
    (pre rest : List Entry) :
    ∀ e ∈ (detachRun identifier callback pre rest).2,
      e = Ev.lastRemoved identifier := by
  induction pre, rest using detachRun.induct identifier callback with
  | case1 pre => simp [detachRun]
  | case2 pre c hpre =>
    rw [detachRun_match_last identifier callback pre c]
    simp [hpre]
  | case3 pre c hpre =>
    rw [detachRun_match_last identifier callback pre c]
    simp [hpre]
  | case4 pre c skip rest' ih =>
    rw [detachRun_match_skip identifier callback pre c skip rest']
    exact ih
  | case5 pre cb c rest hcb ih =>
    rw [detachRun_nomatch identifier callback pre cb c rest hcb]
    exact ih

/-- Branch unfolding: `attach` on an identifier reading `undefined`. -/
theorem attach_absent (m : HM) (identifier : String) (cb : Nat)
    (c : Option Int) (hg : getProp m identifier = none) :
    attach m identifier cb c =
      (setProp m identifier (some [(cb, c.getD (-1))]),
        [Ev.firstAdded identifier]) := by
  unfold attach
  rw [hg]

/-- Branch unfolding: `attach` on an identifier holding a live array. -/
theorem attach_present (m : HM) (identifier : String) (cb : Nat)
    (c : Option Int) (h : List Entry) (hg : getProp m identifier = some h) :
    attach m identifier cb c =
      (setProp m identifier (some (h ++ [(cb, c.getD (-1))])), []) := by
  unfold attach
  rw [hg]

/-- Branch unfolding: `callHandlers` on a live array. -/
theorem callHandlers_present (m : HM) (identifier : String)
    (h : List Entry) (hg : getProp m identifier = some h) :
    callHandlers m identifier =
      (setProp m identifier (runEntries identifier [] h).1,
        (runEntries identifier [] h).2) := by
  unfold callHandlers
  rw [hg]

/-- Branch unfolding: `callHandlers` on an `undefined` property. -/
theorem callHandlers_absent (m : HM) (identifier : String)
    (hg : getProp m identifier = none) :
    callHandlers m identifier = (m, []) := by
  unfold callHandlers
  rw [hg]

/-- Branch unfolding: `detach` on a live array. -/
theorem detach_present (m : HM) (identifier : String) (callback : Nat)
    (h : List Entry) (hg : getProp m identifier = some h) :
    detach m identifier callback =
      (setProp m identifier (detachRun identifier callback [] h).1,
        (detachRun identifier callback [] h).2) := by
  unfold detach
  rw [hg]

/-- Branch unfolding: `detach` on an `undefined` property. -/
theorem detach_absent (m : HM) (identifier : String) (callback : Nat)
    (hg : getProp m identifier = none) :
    detach m identifier callback = (m, []) := by
  unfold detach
  rw [hg]

/-- `detach`'s loop never returns the live empty array unless it started
from one. -/
theorem detachRun_fst_ne_some_nil (identifier : String) (callback : Nat)
    (pre rest : List Entry) :
    pre ≠ [] ∨ rest ≠ [] →
    (detachRun identifier callback pre rest).1 ≠ some [] := by
  induction pre, rest using detachRun.induct identifier callback with
  | case1 pre =>
    intro hor
    rcases hor with h | h
    · simp [detachRun, h]
    · exact absurd rfl h
  | case2 pre c hpre =>
    intro _
    rw [detachRun_match_last identifier callback pre c]
    simp [hpre]
  | case3 pre c hpre =>
    intro _
    rw [detachRun_match_last identifier callback pre c]
    simp only [List.isEmpty_iff] at hpre
    simp [hpre]
  | case4 pre c skip rest' ih =>
    intro _
    rw [detachRun_match_skip identifier callback pre c skip rest']
    exact ih (Or.inl (by simp))
  | case5 pre cb c rest hcb ih =>
    intro _
    rw [detachRun_nomatch identifier callback pre cb c rest hcb]
    exact ih (Or.inl (by simp))

/-! ## Operation sequences over a handler manager

The registry's public surface, as exercised by arbitrary interleavings of
`attach`, `detach` and `callHandlers` (the spec's `dispatch`). -/

/-- One public registry operation. -/
inductive HOp
  | attach (identifier : String) (cb : Nat) (c : Option Int)
  | detach (identifier : String) (cb : Nat)
  | dispatch (identifier : String)
deriving DecidableEq

/-- Apply one operation. -/
def applyOp (m : HM) : HOp → HM × List Ev
  | HOp.attach identifier cb c => attach m identifier cb c
  | HOp.detach identifier cb => detach m identifier cb
  | HOp.dispatch identifier => callHandlers m identifier

/-- Run a sequence of operations from a state, accumulating events. -/
def runOps (m : HM) : List HOp → HM × List Ev
  | [] => (m, [])
  | op :: ops =>
    let r := applyOp m op
    let r' := runOps r.1 ops
    (r'.1, r.2 ++ r'.2)

/-- Does this operation attach to the given identifier? -/
def attachesTo (op : HOp) (identifier : String) : Bool :=
  match op with
  | HOp.attach id' _ _ => id' = identifier
  | _ => false

/-- Invariant: every defined property value is a non-empty entry array
("`undefined` means emptied"). -/
def NiceVals (m : HM) : Prop :=
  ∀ (identifier : String) (h : List Entry),
    getProp m identifier = some h → h ≠ []

theorem niceVals_empty : NiceVals HM.empty := by
  intro identifier h hg
  cases hg

theorem niceVals_setProp_some (m : HM) (identifier : String)
    (v : List Entry) (hv : v ≠ []) (hm : NiceVals m) :
    NiceVals (setProp m identifier (some v)) := by
  intro id' h' hh'
  by_cases hid : id' = identifier
  · subst hid
    rw [getProp_setProp_self] at hh'
    cases hh'
    exact hv
  · rw [getProp_setProp_ne m identifier id' hid] at hh'
    exact hm id' h' hh'

theorem niceVals_setProp_opt (m : HM) (identifier : String)
    (v : Option (List Entry)) (hv : v ≠ some []) (hm : NiceVals m) :
    NiceVals (setProp m identifier v) := by
  cases v with
  | none =>
    intro id' h' hh'
    by_cases hid : id' = identifier
    · subst hid
      rw [getProp_setProp_self] at hh'
      cases hh'
    · rw [getProp_setProp_ne m identifier id' hid] at hh'
      exact hm id' h' hh'
  | some w =>
    refine niceVals_setProp_some m identifier w ?_ hm
    intro hw
    exact hv (by rw [hw])

theorem niceVals_applyOp (m : HM) (op : HOp) (hm : NiceVals m) :
    NiceVals (applyOp m op).1 := by
  cases op with
  | attach identifier cb c =>
    cases hg : getProp m identifier with
    | none =>
      rw [applyOp, attach_absent m identifier cb c hg]
      exact niceVals_setProp_some m identifier _ (by simp) hm
    | some h =>
      rw [applyOp, attach_present m identifier cb c h hg]
      exact niceVals_setProp_some m identifier _ (by simp) hm
  | detach identifier cb =>
    cases hg : getProp m identifier with
    | none => rw [applyOp, detach_absent m identifier cb hg]; exact hm
    | some h =>
      rw [applyOp, detach_present m identifier cb h hg]
      refine niceVals_setProp_opt m identifier _ ?_ hm
      exact detachRun_fst_ne_some_nil identifier cb [] h
        (Or.inr (fun hh => hm identifier h hg hh))
  | dispatch identifier =>
    cases hg : getProp m identifier with
    | none => rw [applyOp, callHandlers_absent m identifier hg]; exact hm
    | some h =>
      rw [applyOp, callHandlers_present m identifier h hg]
      refine niceVals_setProp_opt m identifier _ ?_ hm
      exact runEntries_fst_ne_some_nil identifier [] h
        (Or.inr (fun hh => hm identifier h hg hh))

theorem niceVals_runOps (ops : List HOp) (m : HM) (hm : NiceVals m) :
    NiceVals (runOps m ops).1 := by
  induction ops generalizing m with
  | nil => exact hm
  | cons op ops ih => exact ih (applyOp m op).1 (niceVals_applyOp m op hm)

theorem mem_keys_applyOp (m : HM) (op : HOp) (identifier : String) :
    identifier ∈ registeredIdentifiers (applyOp m op).1 ↔
      identifier ∈ registeredIdentifiers m ∨
        attachesTo op identifier = true := by
  cases op with
  | attach id' cb c =>
    simp only [applyOp, attachesTo, decide_eq_true_eq]
    cases hg : getProp m id' with
    | none =>
      rw [attach_absent m id' cb c hg, mem_keys_setProp]
      constructor
      · rintro (hm | hm)
        · exact Or.inl hm
        · exact Or.inr hm.symm
      · rintro (hm | hm)
        · exact Or.inl hm
        · exact Or.inr hm.symm
    | some h =>
      rw [attach_present m id' cb c h hg, mem_keys_setProp]
      have hk := getProp_some_mem_keys m id' h hg
      constructor
      · rintro (hm | hm)
        · exact Or.inl hm
        · subst hm; exact Or.inl hk
      · rintro (hm | hm)
        · exact Or.inl hm
        · subst hm; exact Or.inl hk
  | detach id' cb =>
    simp only [applyOp, attachesTo, Bool.false_eq_true, or_false]
    cases hg : getProp m id' with
    | none => rw [detach_absent m id' cb hg]
    | some h =>
      rw [detach_present m id' cb h hg, mem_keys_setProp]
      have hk := getProp_some_mem_keys m id' h hg
      constructor
      · rintro (hm | hm)
        · exact hm
        · subst hm; exact hk
      · exact Or.inl
  | dispatch id' =>
    simp only [applyOp, attachesTo, Bool.false_eq_true, or_false]
    cases hg : getProp m id' with
    | none => rw [callHandlers_absent m id' hg]
    | some h =>
      rw [callHandlers_present m id' h hg, mem_keys_setProp]
      have hk := getProp_some_mem_keys m id' h hg
      constructor
      · rintro (hm | hm)
        · exact hm
        · subst hm; exact hk
      · exact Or.inl

theorem mem_keys_runOps (ops : List HOp) (m : HM) (identifier : String) :
    identifier ∈ registeredIdentifiers (runOps m ops).1 ↔
      identifier ∈ registeredIdentifiers m ∨
        ops.any (fun op => attachesTo op identifier) = true := by
  induction ops generalizing m with
  | nil => simp [runOps]
  | cons op ops ih =>
    simp only [runOps]
    rw [ih (applyOp m op).1]
    rw [mem_keys_applyOp]
    simp [List.any_cons, Bool.or_eq_true, or_assoc]

theorem count_firstAdded_applyOp (m : HM) (op : HOp) (identifier : String) :
    (applyOp m op).2.count (Ev.firstAdded identifier) =
      if getProp m identifier = none ∧ attachesTo op identifier = true
      then 1 else 0 := by
  cases op with
  | attach id' cb c =>
    by_cases hid : id' = identifier
    · subst hid
      cases hg : getProp m id' with
      | none =>
        rw [applyOp, attach_absent m id' cb c hg]
        simp [attachesTo]
      | some h =>
        rw [applyOp, attach_present m id' cb c h hg]
        simp [hg]
    · cases hg : getProp m id' with
      | none =>
        rw [applyOp, attach_absent m id' cb c hg]
        simp only [attachesTo, decide_eq_true_eq]
        rw [List.count_singleton]
        simp [hid]
      | some h =>
        rw [applyOp, attach_present m id' cb c h hg]
        simp [attachesTo, hid]
  | detach id' cb =>
    have hz : (applyOp m (HOp.detach id' cb)).2.count
        (Ev.firstAdded identifier) = 0 := by
      refine List.count_eq_zero.mpr ?_
      intro hmem
      cases hg : getProp m id' with
      | none =>
        rw [applyOp, detach_absent m id' cb hg] at hmem
        cases hmem
      | some h =>
        rw [applyOp, detach_present m id' cb h hg] at hmem
        have := detachRun_events_shape id' cb [] h _ hmem
        cases this
    rw [hz]
    simp [attachesTo]
  | dispatch id' =>
    have hz : (applyOp m (HOp.dispatch id')).2.count
        (Ev.firstAdded identifier) = 0 := by
      refine List.count_eq_zero.mpr ?_
      intro hmem
      cases hg : getProp m id' with
      | none =>
        rw [applyOp, callHandlers_absent m id' hg] at hmem
        cases hmem
      | some h =>
        rw [applyOp, callHandlers_present m id' h hg] at hmem
        rcases runEntries_events_shape id' [] h _ hmem with ⟨cb', hcb'⟩ | hcb'
        · cases hcb'
        · cases hcb'
    rw [hz]
    simp [attachesTo]

theorem count_lastRemoved_applyOp (m : HM) (op : HOp) (identifier : String) :
    (applyOp m op).2.count (Ev.lastRemoved identifier) =
      if getProp m identifier ≠ none ∧
          getProp (applyOp m op).1 identifier = none
      then 1 else 0 := by
  cases op with
  | attach id' cb c =>
    by_cases hid : identifier = id'
    · subst hid
      cases hg : getProp m identifier with
      | none =>
        rw [applyOp, attach_absent m identifier cb c hg]
        simp [List.count_singleton]
      | some h =>
        rw [applyOp, attach_present m identifier cb c h hg]
        simp
    · cases hg : getProp m id' with
      | none =>
        rw [applyOp, attach_absent m id' cb c hg]
        rw [getProp_setProp_ne m id' identifier hid]
        rw [List.count_singleton]
        simp
      | some h =>
        rw [applyOp, attach_present m id' cb c h hg]
        rw [getProp_setProp_ne m id' identifier hid]
        simp
  | detach id' cb =>
    by_cases hid : identifier = id'
    · subst hid
      cases hg : getProp m identifier with
      | none =>
        rw [applyOp, detach_absent m identifier cb hg]
        simp [hg]
      | some h =>
        rw [applyOp, detach_present m identifier cb h hg]
        rw [getProp_setProp_self]
        rw [count_lastRemoved_detachRun]
        simp [hg]
    · cases hg : getProp m id' with
      | none =>
        rw [applyOp, detach_absent m id' cb hg]
        simp
      | some h =>
        rw [applyOp, detach_present m id' cb h hg]
        rw [getProp_setProp_ne m id' identifier hid]
        have hz : (detachRun id' cb [] h).2.count
            (Ev.lastRemoved identifier) = 0 := by
          refine List.count_eq_zero.mpr ?_
          intro hmem
          have h2 := detachRun_events_shape id' cb [] h _ hmem
          exact hid (by injection h2)
        rw [hz]
        simp
  | dispatch id' =>
    by_cases hid : identifier = id'
    · subst hid
      cases hg : getProp m identifier with
      | none =>
        rw [applyOp, callHandlers_absent m identifier hg]
        simp [hg]
      | some h =>
        rw [applyOp, callHandlers_present m identifier h hg]
        rw [getProp_setProp_self]
        rw [count_lastRemoved_runEntries]
        simp [hg]
    · cases hg : getProp m id' with
      | none =>
        rw [applyOp, callHandlers_absent m id' hg]
        simp
      | some h =>
        rw [applyOp, callHandlers_present m id' h hg]
        rw [getProp_setProp_ne m id' identifier hid]
        have hz : (runEntries id' [] h).2.count
            (Ev.lastRemoved identifier) = 0 := by
          refine List.count_eq_zero.mpr ?_
          intro hmem
          rcases runEntries_events_shape id' [] h _ hmem with ⟨cb', hcb'⟩ | hcb'
          · cases hcb'
          · exact hid (by injection hcb')
        rw [hz]
        simp

/-! ## Claim C1: dispatch order and the consumed-entry skip -/

/-- Claim C1 counterexample — with a once-entry (callback 0) attached before
a permanent entry (callback 1), a single dispatch invokes only callback 0:
the consumed entry's splice shifts callback 1 into the visited index and the
loop skips it, so not every callback attached at the start of the dispatch
is invoked. -/
theorem c1_counterexample :
    invokedOf (callHandlers
      (attach (attach HM.empty "a" 0 (some 1)).1 "a" 1 none).1 "a").2 =
      [0] ∧
    ¬(1 ∈ invokedOf (callHandlers
      (attach (attach HM.empty "a" 0 (some 1)).1 "a" 1 none).1 "a").2) := by
  decide

/-- Claim C1 (amended) — dispatch invokes a subsequence of the callbacks
attached at its start, in attachment order, at most once each; it invokes
*every* one exactly once when no entry holds exactly one remaining call
(consuming an entry skips its immediate successor in that pass). For a
finite-count entry the count is decremented before invocation, and a
consumed entry is removed — with the last-removed hook, when the list
empties — before its callback runs (hook event precedes the invoke event).
A handler attached with `callCount = 1` and dispatched twice is invoked
exactly once; the second dispatch finds no entry. -/
theorem c1_dispatch_amended :
    (∀ (m : HM) (identifier : String) (h : List Entry),
      getProp m identifier = some h →
      List.Sublist (invokedOf (callHandlers m identifier).2)
        (h.map Prod.fst)) ∧
    (∀ (m : HM) (identifier : String) (h : List Entry),
      getProp m identifier = some h → (∀ e ∈ h, e.2 ≠ 1) →
      invokedOf (callHandlers m identifier).2 = h.map Prod.fst) ∧
    (∀ (identifier : String) (cb : Nat),
      (callHandlers (attachOnce HM.empty identifier cb).1 identifier).2 =
        [Ev.lastRemoved identifier, Ev.invoke cb] ∧
      getProp (callHandlers (attachOnce HM.empty identifier cb).1
        identifier).1 identifier = none) ∧
    (∀ (identifier : String) (cb : Nat),
      invokedOf (callHandlers (callHandlers
        (attachOnce HM.empty identifier cb).1 identifier).1 identifier).2 =
        []) := by
  have hsingle : ∀ (identifier : String) (cb : Nat),
      (attachOnce HM.empty identifier cb).1 =
        setProp HM.empty identifier (some [(cb, 1)]) := by
    intro identifier cb
    rw [attachOnce, attach_absent HM.empty identifier cb (some 1) rfl]
    rfl
  have hrun : ∀ (identifier : String) (cb : Nat),
      runEntries identifier [] [(cb, (1 : Int))] =
        (none, [Ev.lastRemoved identifier, Ev.invoke cb]) := by
    intro identifier cb
    rw [runEntries_last_once identifier [] cb 1 (by norm_num) (by norm_num)]
    simp
  refine ⟨?_, ?_, ?_, ?_⟩
  · intro m identifier h hg
    rw [callHandlers_present m identifier h hg]
    exact invokedOf_runEntries_sublist identifier [] h
  · intro m identifier h hg hno
    rw [callHandlers_present m identifier h hg]
    exact invokedOf_runEntries_no_once identifier [] h hno
  · intro identifier cb
    rw [hsingle identifier cb,
      callHandlers_present _ identifier [(cb, 1)] (getProp_setProp_self _ _ _),
      hrun identifier cb]
    exact ⟨rfl, getProp_setProp_self _ _ _⟩
  · intro identifier cb
    rw [hsingle identifier cb,
      callHandlers_present _ identifier [(cb, 1)] (getProp_setProp_self _ _ _),
      hrun identifier cb]
    rw [callHandlers_absent _ identifier (getProp_setProp_self _ _ _)]
    rfl

/-- Witness for C1 (amended) at concrete inputs: two permanent entries are
both invoked in order; a single once-entry fires the hook before its
invocation. -/
theorem c1_dispatch_amended_witness :
    invokedOf (callHandlers
      (setProp HM.empty "a" (some [(5, -1), (6, -1)])) "a").2 = [5, 6] ∧
    (callHandlers (attachOnce HM.empty "b" 9).1 "b").2 =
      [Ev.lastRemoved "b", Ev.invoke 9] := by
  constructor
  · exact c1_dispatch_amended.2.1 _ "a" [(5, -1), (6, -1)]
      (getProp_setProp_self _ _ _) (by decide)
  · exact (c1_dispatch_amended.2.2.1 "b" 9).1

/-! ## Claim C4: key/entry invariant and lifecycle hooks -/

/-- Claim C4 counterexample — attach then detach leaves the identifier key
in the mapping with an `undefined` value (zero entries), and
`registeredIdentifiers()` still reports it. -/
theorem c4_counterexample :
    getProp (detach (attach HM.empty "a" 0 none).1 "a" 0).1 "a" = none ∧
    registeredIdentifiers (detach (attach HM.empty "a" 0 none).1 "a" 0).1 =
      ["a"] := by
  decide

/-- Claim C4 (amended) — over every operation sequence from a fresh
registry: an identifier's property holds a (necessarily non-empty) entry
array iff it has at least one entry, but the *key* persists after emptying,
so `registeredIdentifiers()` returns exactly the identifiers that some
`attach` ever targeted; and per operation, the first-added hook fires
exactly once when an identifier goes from no entries (`undefined`) to one,
and the last-removed hook exactly once when its property transitions to
`undefined`. -/
theorem c4_registry_amended :
    (∀ (ops : List HOp) (identifier : String) (h : List Entry),
      getProp (runOps HM.empty ops).1 identifier = some h → h ≠ []) ∧
    (∀ (ops : List HOp) (identifier : String),
      identifier ∈ registeredIdentifiers (runOps HM.empty ops).1 ↔
        ops.any (fun op => attachesTo op identifier) = true) ∧
    (∀ (m : HM) (op : HOp) (identifier : String),
      (applyOp m op).2.count (Ev.firstAdded identifier) =
        if getProp m identifier = none ∧ attachesTo op identifier = true
        then 1 else 0) ∧
    (∀ (m : HM) (op : HOp) (identifier : String),
      (applyOp m op).2.count (Ev.lastRemoved identifier) =
        if getProp m identifier ≠ none ∧
            getProp (applyOp m op).1 identifier = none
        then 1 else 0) := by
  refine ⟨?_, ?_, count_firstAdded_applyOp, count_lastRemoved_applyOp⟩
  · intro ops
    exact niceVals_runOps ops HM.empty niceVals_empty
  · intro ops identifier
    rw [mem_keys_runOps ops HM.empty identifier]
    simp [registeredIdentifiers, HM.empty]

/-- Witness for C4 (amended) at a concrete sequence: attach then detach
leaves the key reported, the last-removed hook fired exactly once at the
detach, and the first-added hook exactly once at the attach. -/
theorem c4_registry_amended_witness :
    ("a" ∈ registeredIdentifiers
      (runOps HM.empty [HOp.attach "a" 0 none, HOp.detach "a" 0]).1) ∧
    (applyOp HM.empty (HOp.attach "a" 0 none)).2.count
      (Ev.firstAdded "a") = 1 ∧
    (applyOp (attach HM.empty "a" 0 none).1 (HOp.detach "a" 0)).2.count
      (Ev.lastRemoved "a") = 1 := by
  refine ⟨?_, ?_, ?_⟩
  · exact (c4_registry_amended.2.1
      [HOp.attach "a" 0 none, HOp.detach "a" 0] "a").mpr (by decide)
  · rw [c4_registry_amended.2.2.1 HM.empty (HOp.attach "a" 0 none) "a"]
    decide
  · rw [c4_registry_amended.2.2.2 (attach HM.empty "a" 0 none).1
      (HOp.detach "a" 0) "a"]
    decide

/-! ## Claim C8: `detachAll` is dead code -/

theorem mapData_setProp (m : HM) (identifier : String)
    (v : Option (List Entry)) : (setProp m identifier v).mapData = m.mapData :=
  rfl

theorem mapData_applyOp (m : HM) (op : HOp) :
    (applyOp m op).1.mapData = m.mapData := by
  cases op with
  | attach identifier cb c =>
    cases hg : getProp m identifier with
    | none => rw [applyOp, attach_absent m identifier cb c hg]; rfl
    | some h => rw [applyOp, attach_present m identifier cb c h hg]; rfl
  | detach identifier cb =>
    cases hg : getProp m identifier with
    | none => rw [applyOp, detach_absent m identifier cb hg]
    | some h => rw [applyOp, detach_present m identifier cb h hg]; rfl
  | dispatch identifier =>
    cases hg : getProp m identifier with
    | none => rw [applyOp, callHandlers_absent m identifier hg]
    | some h => rw [applyOp, callHandlers_present m identifier h hg]; rfl

theorem mapData_runOps (ops : List HOp) (m : HM) :
    (runOps m ops).1.mapData = m.mapData := by
  induction ops generalizing m with
  | nil => rfl
  | cons op ops ih =>
    simp only [runOps]
    rw [ih (applyOp m op).1, mapData_applyOp]

/-- Claim C8 (code defect) — on every registry reachable through the public
operations, `detachAll()` removes nothing and fires no hook: it iterates the
`Map`'s own key collection, which no code path ever populates (all writes
are plain property assignments), so its loop body never runs. -/
theorem c8_detachAll_noop (ops : List HOp) :
    detachAll (runOps HM.empty ops).1 =
      .ok ((runOps HM.empty ops).1, []) := by
  rw [detachAll, mapData_runOps]
  rfl

/-! ## ClientOrchestrator (`module.exports = function (url) {...}`)

The closure state: the current connection (initially `undefined`), the
`readyCallbacks` queue, four handler registries, and the 2×2 definition
stores. The four `PACKET_TYPES` used by `handleMessage` are the wire
strings. -/

/-- `PACKET_TYPES.EVENT`. -/
def PACKET_TYPES_EVENT : String := "event"

/-- `PACKET_TYPES.ACTION`. -/
def PACKET_TYPES_ACTION : String := "action"

/-- `PACKET_TYPES.DEFINITION`. -/
def PACKET_TYPES_DEFINITION : String := "def"

/-- `PACKET_TYPES.UNDEFINITION`. -/
def PACKET_TYPES_UNDEFINITION : String := "undef"

/-- Outbound `sub` packet (`sendSubscribe`). -/
def subPacket (identifier : String) : Packet :=
  ⟨"sub", identifier, 0, none⟩

/-- Outbound `def` packet (`sendDefinition`): the payload is the Definition. -/
def defPacket (d : Definition) : Packet :=
  ⟨"def", d.identifier, 0, some d⟩

/-- Outbound `event` packet (`sendEvent`). -/
def eventPacket (identifier : String) (data : Nat) : Packet :=
  ⟨"event", identifier, data, none⟩

/-- Outbound `action` packet (`sendAction`). -/
def actionPacket (identifier : String) (data : Nat) : Packet :=
  ⟨"action", identifier, data, none⟩

/-- The connection object returned by `newRotondeConnection`: its `connected`
flag flips to true on the socket's open event. -/
structure Conn where
  connected : Bool
deriving DecidableEq

/-- The client closure's state. -/
structure Client where
  connection : Option Conn
  readyCallbacks : List Nat
  eventHandlers : HM
  actionHandlers : HM
  definitionHandlers : HM
  unDefinitionHandlers : HM
  localDefsAction : List Definition
  localDefsEvent : List Definition
  remoteDefsAction : List Definition
  remoteDefsEvent : List Definition
deriving DecidableEq

/-- A fresh client: `connection = undefined`, everything empty. -/
def initialClient : Client :=
  ⟨none, [], HM.empty, HM.empty, HM.empty, HM.empty, [], [], [], []⟩

/-- `isConnected()` = `connection && connection.isConnected()`; with no
connection the JS expression evaluates to `undefined`, which is falsy —
modelled as `false`. -/
def isConnected (c : Client) : Bool :=
  match c.connection with
  | none => false
  | some conn => conn.connected

/-- `connect()`: replace the connection wholesale with a fresh, not yet
open channel (`newRotondeConnection`; `connected` starts false). -/
def connect (c : Client) : Client :=
  { c with connection := some ⟨false⟩ }

/-- The `socket.onopen` transition plus the ready closure passed to
`newRotondeConnection` by `connect`: set `connected`, invoke every queued
ready callback (the queue is *not* cleared), send `sub` for every key of the
event registry (`eventHandlers.each` = `_.keys`), then send a `def` for every
local definition, `action` store first then `event` store. -/
def openTransition (c : Client) : Client × List Ev :=
  ({ c with connection := some ⟨true⟩ },
    c.readyCallbacks.map Ev.readyCall ++
      (registeredIdentifiers c.eventHandlers).map
        (fun identifier => Ev.sent (subPacket identifier)) ++
      (c.localDefsAction ++ c.localDefsEvent).map
        (fun d => Ev.sent (defPacket d)))

/-- `onReady(callback)`: run now when connected, else queue. -/
def onReady (c : Client) (cb : Nat) : Client × List Ev :=
  if isConnected c then (c, [Ev.readyCall cb])
  else ({ c with readyCallbacks := c.readyCallbacks ++ [cb] }, [])

/-- Public `sendEvent(identifier, data)`: `connection.sendEvent(...)` —
dereferences `connection`, which is `undefined` before any `connect()`. -/
def clientSendEvent (c : Client) (identifier : String) (data : Nat) :
    Except JsError (List Ev) :=
  match c.connection with
  | none => .error .typeError
  | some _ => .ok [Ev.sent (eventPacket identifier data)]

/-- Public `sendAction(identifier, data)`. -/
def clientSendAction (c : Client) (identifier : String) (data : Nat) :
    Except JsError (List Ev) :=
  match c.connection with
  | none => .error .typeError
  | some _ => .ok [Ev.sent (actionPacket identifier data)]

/-- `handleMessage(event)` after `JSON.parse`: route by `packet.type`.
`event`/`action` dispatch the matching registry; `def` merges into the
remote store keyed by the *definition's* own `type` (any other type makes
`remoteDefinitions[type]` `undefined` and the call throw), dispatches the
definition-arrival registry and, for an event definition whose identifier is
among the event registry's keys, sends `sub`; `undef` removes from the
remote store and dispatches the undefinition-arrival registry; every other
packet type falls through all branches with no effect. -/
def handleMessage (c : Client) (p : Packet) : Except JsError (Client × List Ev) :=
  if p.ptype = PACKET_TYPES_EVENT then
    let r := callHandlers c.eventHandlers p.identifier
    .ok ({ c with eventHandlers := r.1 }, r.2)
  else if p.ptype = PACKET_TYPES_ACTION then
    let r := callHandlers c.actionHandlers p.identifier
    .ok ({ c with actionHandlers := r.1 }, r.2)
  else if p.ptype = PACKET_TYPES_DEFINITION then
    match p.pdef with
    | none => .error .typeError
    | some d =>
      if d.type = "action" then
        let c1 := { c with
          remoteDefsAction := addDefinition c.remoteDefsAction d }
        let r := callHandlers c1.definitionHandlers d.identifier
        .ok ({ c1 with definitionHandlers := r.1 }, r.2)
      else if d.type = "event" then
        let c1 := { c with
          remoteDefsEvent := addDefinition c.remoteDefsEvent d }
        let r := callHandlers c1.definitionHandlers d.identifier
        let c2 := { c1 with definitionHandlers := r.1 }
        if d.identifier ∈ registeredIdentifiers c2.eventHandlers then
          .ok (c2, r.2 ++ [Ev.sent (subPacket d.identifier)])
        else .ok (c2, r.2)
      else .error .typeError
  else if p.ptype = PACKET_TYPES_UNDEFINITION then
    match p.pdef with
    | none => .error .typeError
    | some d =>
      if d.type = "action" then
        let c1 := { c with
          remoteDefsAction := removeDefinition c.remoteDefsAction d.identifier }
        let r := callHandlers c1.unDefinitionHandlers d.identifier
        .ok ({ c1 with unDefinitionHandlers := r.1 }, r.2)
      else if d.type = "event" then
        let c1 := { c with
          remoteDefsEvent := removeDefinition c.remoteDefsEvent d.identifier }
        let r := callHandlers c1.unDefinitionHandlers d.identifier
        .ok ({ c1 with unDefinitionHandlers := r.1 }, r.2)
      else .error .typeError
  else .ok (c, [])

/-! ## Claim C6: open replay and the uncleared ready queue -/

/-- Claim C6 counterexample — a callback queued before the first `connect()`
is invoked again when a later `connect()`'s channel opens, because the ready
queue is never cleared: after the first open the queue still holds the
callback, and the second open's trace invokes it again. -/
theorem c6_counterexample :
    (openTransition (connect (onReady initialClient 7).1)).1.readyCallbacks =
      [7] ∧
    (openTransition (connect
      (openTransition (connect (onReady initialClient 7).1)).1)).2 =
      [Ev.readyCall 7] := by
  decide

theorem count_readyCall_map (cb : Nat) (l : List Nat) :
    (l.map Ev.readyCall).count (Ev.readyCall cb) = l.count cb := by
  induction l with
  | nil => rfl
  | cons x xs ih =>
    by_cases hx : x = cb
    · simp [List.count_cons, hx, ih]
    · simp [List.count_cons, hx, ih]

theorem count_readyCall_sent_map {α : Type} (cb : Nat) (l : List α)
    (f : α → Packet) :
    ((l.map (fun a => Ev.sent (f a))).count (Ev.readyCall cb)) = 0 := by
  refine List.count_eq_zero.mpr ?_
  intro hmem
  rcases List.mem_map.mp hmem with ⟨a, _, ha⟩
  cases ha

/-- Claim C6 (amended) — when a channel created by `connect()` reaches Open:
every queued ready callback is invoked exactly once *per open transition*
(the queue is **not** cleared, so a callback queued before a first connect
is invoked again by a later connect's open); afterwards a `sub` packet is
sent for every identifier key in the event registry — hence for every
identifier with a registered event handler, including those registered while
disconnected — and a `def` packet for every Definition in both local stores,
including those added while disconnected. -/
theorem c6_open_amended (c : Client) :
    ((openTransition c).1.readyCallbacks = c.readyCallbacks) ∧
    (∀ cb : Nat, (openTransition c).2.count (Ev.readyCall cb) =
      c.readyCallbacks.count cb) ∧
    (∀ identifier : String,
      identifier ∈ registeredIdentifiers c.eventHandlers →
      Ev.sent (subPacket identifier) ∈ (openTransition c).2) ∧
    (∀ d : Definition, d ∈ c.localDefsAction ++ c.localDefsEvent →
      Ev.sent (defPacket d) ∈ (openTransition c).2) ∧
    (isConnected (openTransition c).1 = true) := by
  refine ⟨rfl, ?_, ?_, ?_, rfl⟩
  · intro cb
    simp only [openTransition, List.count_append]
    rw [count_readyCall_map, count_readyCall_sent_map, count_readyCall_sent_map]
    omega
  · intro identifier hmem
    simp only [openTransition, List.mem_append]
    exact Or.inl (Or.inr (List.mem_map_of_mem _ hmem))
  · intro d hmem
    simp only [openTransition, List.mem_append]
    exact Or.inr (List.mem_map_of_mem _ hmem)

/-- Witness for C6 (amended): a client with one queued callback, one
registered event handler and one local definition replays all three on
open. -/
theorem c6_open_amended_witness :
    ((openTransition ⟨some ⟨false⟩, [7], (attach HM.empty "e" 3 none).1,
        HM.empty, HM.empty, HM.empty, [⟨"d", "action", [], 0⟩], [], [],
        []⟩).2.count (Ev.readyCall 7) = 1) ∧
    (Ev.sent (subPacket "e") ∈ (openTransition ⟨some ⟨false⟩, [7],
        (attach HM.empty "e" 3 none).1, HM.empty, HM.empty, HM.empty,
        [⟨"d", "action", [], 0⟩], [], [], []⟩).2) ∧
    (Ev.sent (defPacket ⟨"d", "action", [], 0⟩) ∈
      (openTransition ⟨some ⟨false⟩, [7], (attach HM.empty "e" 3 none).1,
        HM.empty, HM.empty, HM.empty, [⟨"d", "action", [], 0⟩], [], [],
        []⟩).2) := by
  refine ⟨?_, ?_, ?_⟩
  · rw [(c6_open_amended _).2.1 7]
    decide
  · exact (c6_open_amended _).2.2.1 "e" (by decide)
  · exact (c6_open_amended _).2.2.2.1 ⟨"d", "action", [], 0⟩ (by decide)

/-! ## Claim C9: sends before any connect throw -/

/-- Claim C9 — with no `connect()` ever called (`connection` is
`undefined`), `sendEvent` and `sendAction` throw a `TypeError` by
dereferencing the undefined connection — there is no no-op or queueing
fallback — while `isConnected()` is falsy. -/
theorem c9_send_throws (c : Client) (hc : c.connection = none) :
    (∀ (identifier : String) (data : Nat),
      clientSendEvent c identifier data = .error .typeError) ∧
    (∀ (identifier : String) (data : Nat),
      clientSendAction c identifier data = .error .typeError) ∧
    isConnected c = false := by
  refine ⟨?_, ?_, ?_⟩
  · intro identifier data
    rw [clientSendEvent, hc]
  · intro identifier data
    rw [clientSendAction, hc]
  · rw [isConnected, hc]

/-- Witness for C9 on the fresh client. -/
theorem c9_send_throws_witness :
    clientSendEvent initialClient "x" 1 = .error .typeError ∧
    isConnected initialClient = false :=
  ⟨(c9_send_throws initialClient rfl).1 "x" 1,
    (c9_send_throws initialClient rfl).2.2⟩

/-! ## Claim C10: unknown packet types are silently dropped -/

/-- Claim C10 — an inbound packet whose type is none of `event`, `action`,
`def`, `undef` (for example `sub` or `unsub`) leaves the client unchanged —
every definition store and every handler registry — invokes no handler,
sends nothing and raises no error. -/
theorem c10_unknown_packet_dropped (c : Client) (p : Packet)
    (hp : ¬p.ptype ∈ [PACKET_TYPES_EVENT, PACKET_TYPES_ACTION,
      PACKET_TYPES_DEFINITION, PACKET_TYPES_UNDEFINITION]) :
    handleMessage c p = .ok (c, []) := by
  have h1 : ¬p.ptype = PACKET_TYPES_EVENT := by
    intro h; exact hp (by simp [h])
  have h2 : ¬p.ptype = PACKET_TYPES_ACTION := by
    intro h; exact hp (by simp [h])
  have h3 : ¬p.ptype = PACKET_TYPES_DEFINITION := by
    intro h; exact hp (by simp [h])
  have h4 : ¬p.ptype = PACKET_TYPES_UNDEFINITION := by
    intro h; exact hp (by simp [h])
  rw [handleMessage, if_neg h1, if_neg h2, if_neg h3, if_neg h4]

/-- Witness for C10: an inbound `sub` packet is dropped. -/
theorem c10_unknown_packet_dropped_witness :
    handleMessage initialClient ⟨"sub", "x", 0, none⟩ =
      .ok (initialClient, []) :=
  c10_unknown_packet_dropped initialClient ⟨"sub", "x", 0, none⟩ (by decide)

/-! ## `makePromise` (the spec's `awaitOnce`)

`makePromise(identifier, timeout)` attaches `fn` once *to the shared
registry in its current state*, and when `timeout` is truthy arms a timer
whose callback first detaches `fn` and then rejects with
`'time out ' + identifier`; `fn` resolves with the dispatched payload and
clears the timer. The promise/timer pair is embedded as a transition system
driven by the two external happenings: a dispatch for the identifier and the
timer firing (a cleared or never-armed timer cannot fire). `fn` is a fresh
closure: its reference token is distinct from every callback already
attached, which hypotheses below state where it matters. -/

/-- The reference token of the closure `fn` created by `makePromise`. -/
def fnTok : Nat := 0

/-- A settled promise outcome: resolution value or rejection message. -/
inductive AwaitOutcome
  | resolved (data : Nat)
  | rejected (msg : String)
deriving DecidableEq

/-- State of one `makePromise` call: the registry, the promise's outcome
(`none` while pending; a settled promise never changes), and whether the
timer is armed. -/
structure AwaitSt where
  reg : HM
  settled : Option AwaitOutcome
  timerActive : Bool
deriving DecidableEq

/-- `makePromise(identifier, timeout)` against the registry `m` in its
current state: `this.attachOnce(identifier, fn)` appends `fn`'s entry after
any entries already attached, then — only for truthy `timeout`
(`if (!timeout) return`) — the timer is armed. -/
def awaitOnceInit (m : HM) (identifier : String) (timeout : Nat) : AwaitSt :=
  { reg := (attachOnce m identifier fnTok).1,
    settled := none,
    timerActive := timeout != 0 }

/-- External happenings: a `dispatch(identifier, data)` and the timeout
timer firing. -/
inductive AwaitIn
  | dispatchIn (data : Nat)
  | timerFire
deriving DecidableEq

/-- One step. A dispatch runs `callHandlers`; if `fn` was invoked it
resolves the (still pending) promise with the payload and clears the timer
(`resolve(data); if (timer) clearTimeout(timer)`). The timer, when armed,
detaches `fn` *and then* rejects with `'time out ' + identifier`
(rejecting an already-settled promise is a no-op). -/
def astep (identifier : String) (s : AwaitSt) : AwaitIn → AwaitSt × List Ev
  | AwaitIn.dispatchIn data =>
    let r := callHandlers s.reg identifier
    (⟨r.1,
      if Ev.invoke fnTok ∈ r.2 ∧ s.settled = none then
        some (AwaitOutcome.resolved data)
      else s.settled,
      if Ev.invoke fnTok ∈ r.2 then false else s.timerActive⟩, r.2)
  | AwaitIn.timerFire =>
    if s.timerActive then
      let r := detach s.reg identifier fnTok
      (⟨r.1,
        if s.settled = none then
          some (AwaitOutcome.rejected ("time out " ++ identifier))
        else s.settled,
        false⟩, r.2)
    else (s, [])

/-- Run a sequence of happenings. -/
def runAwait (identifier : String) (s : AwaitSt) :
    List AwaitIn → AwaitSt × List Ev
  | [] => (s, [])
  | i :: is =>
    let r := astep identifier s i
    let r' := runAwait identifier r.1 is
    (r'.1, r.2 ++ r'.2)

/-- No callback reference equal to `fn`'s is attached for the identifier
(vacuously true for an `undefined` slot). -/
def noFnEntry (m : HM) (identifier : String) : Prop :=
  fnTok ∉ ((getProp m identifier).getD []).map Prod.fst

instance (m : HM) (identifier : String) : Decidable (noFnEntry m identifier) :=
  inferInstanceAs
    (Decidable (fnTok ∉ ((getProp m identifier).getD []).map Prod.fst))

/-- Once the identifier's entry is gone and the timer is disarmed, every
further happening leaves the outcome unchanged and invokes nothing. -/
theorem astep_stable (identifier : String) (s : AwaitSt)
    (hr : getProp s.reg identifier = none) (ht : s.timerActive = false)
    (i : AwaitIn) :
    getProp (astep identifier s i).1.reg identifier = none ∧
    (astep identifier s i).1.settled = s.settled ∧
    (astep identifier s i).1.timerActive = false ∧
    (astep identifier s i).2 = [] := by
  cases i with
  | dispatchIn data =>
    simp only [astep]
    rw [callHandlers_absent s.reg identifier hr]
    simp [hr, ht]
  | timerFire =>
    simp only [astep, ht]
    simp [hr, ht]

/-- `astep_stable` closed under sequences. -/
theorem runAwait_stable (identifier : String) (trace : List AwaitIn) :
    ∀ (s : AwaitSt), getProp s.reg identifier = none →
      s.timerActive = false →
      (runAwait identifier s trace).1.settled = s.settled ∧
      getProp (runAwait identifier s trace).1.reg identifier = none ∧
      invokedOf (runAwait identifier s trace).2 = [] := by
  induction trace with
  | nil => intro s hr ht; exact ⟨rfl, hr, rfl⟩
  | cons i is ih =>
    intro s hr ht
    obtain ⟨h1, h2, h3, h4⟩ := astep_stable identifier s hr ht i
    obtain ⟨g1, g2, g3⟩ := ih (astep identifier s i).1 h1 h3
    refine ⟨?_, ?_, ?_⟩
    · simp only [runAwait]
      rw [g1, h2]
    · simpa only [runAwait] using g2
    · simp only [runAwait, invokedOf, List.filterMap_append]
      rw [← invokedOf, ← invokedOf, g3, h4]
      rfl

/-- A settled promise stays settled with the same outcome, whatever the
registry does (`resolve`/`reject` on a settled promise are no-ops). -/
theorem runAwait_settled_frozen (identifier : String) (trace : List AwaitIn) :
    ∀ (s : AwaitSt) (x : AwaitOutcome), s.settled = some x →
      (runAwait identifier s trace).1.settled = some x := by
  induction trace with
  | nil => intro s x hs; exact hs
  | cons i is ih =>
    intro s x hs
    have hstep : (astep identifier s i).1.settled = some x := by
      cases i with
      | dispatchIn data => simp [astep, hs]
      | timerFire =>
        cases htb : s.timerActive
        · simp [astep, htb, hs]
        · simp [astep, htb, hs]
    simp only [runAwait]
    exact ih _ x hstep

/-- A dispatch pass never introduces a callback reference: the surviving
entries' callbacks all come from the entries present at its start. -/
theorem runEntries_callbacks_subset (identifier : String)
    (pre rest : List Entry) :
    ∀ fin : List Entry, (runEntries identifier pre rest).1 = some fin →
      ∀ cb', cb' ∈ fin.map Prod.fst → cb' ∈ (pre ++ rest).map Prod.fst := by
  induction pre, rest using runEntries.induct identifier with
  | case1 pre =>
    intro fin hf cb' hcb
    simp only [runEntries] at hf
    injection hf with hpf
    subst hpf
    simpa using hcb
  | case2 pre cb c hc hc1 hpre =>
    intro fin hf cb' hcb
    rw [runEntries_last_once identifier pre cb c hc hc1] at hf
    simp [hpre] at hf
  | case3 pre cb c hc hc1 hpre =>
    intro fin hf cb' hcb
    rw [runEntries_last_once identifier pre cb c hc hc1] at hf
    simp [hpre] at hf
    subst hf
    simp only [List.map_append, List.mem_append]
    exact Or.inl (by simpa using hcb)
  | case4 pre cb c hc hc1 skip rest' ih =>
    intro fin hf cb' hcb
    rw [runEntries_once_skip identifier pre cb c skip rest' hc hc1] at hf
    have ihr := ih fin hf cb' hcb
    simp only [List.map_append, List.mem_append, List.map_cons,
      List.mem_cons] at ihr ⊢
    tauto
  | case5 pre cb c rest hc hc1 ih =>
    intro fin hf cb' hcb
    rw [runEntries_dec identifier pre cb c rest hc hc1] at hf
    have ihr := ih fin hf cb' hcb
    simp only [List.map_append, List.mem_append, List.map_cons,
      List.mem_cons] at ihr ⊢
    tauto
  | case6 pre cb c rest hc ih =>
    intro fin hf cb' hcb
    rw [runEntries_perm identifier pre cb c rest hc] at hf
    have ihr := ih fin hf cb' hcb
    simp only [List.map_append, List.mem_append, List.map_cons,
      List.mem_cons] at ihr ⊢
    tauto

/-- Detaching a callback whose only entry is the final one walks the
earlier (non-matching) entries into the visited prefix untouched. -/
theorem detachRun_append_last (identifier : String) (cb : Nat) (c : Int)
    (rest : List Entry) :
    ∀ pre : List Entry, (∀ e ∈ rest, e.1 ≠ cb) →
      detachRun identifier cb pre (rest ++ [(cb, c)]) =
        detachRun identifier cb (pre ++ rest) [(cb, c)] := by
  induction rest with
  | nil => intro pre _; simp
  | cons e rest ih =>
    intro pre hne
    obtain ⟨cb', c'⟩ := e
    have hcb' : ¬cb' = cb := hne (cb', c') (by simp)
    rw [List.cons_append,
      detachRun_nomatch identifier cb pre cb' c' (rest ++ [(cb, c)]) hcb']
    rw [ih (pre ++ [(cb', c')])
      (fun e he => hne e (List.mem_cons_of_mem _ he))]
    simp

/-- With no entry carrying `fn`'s reference and the timer disarmed, a step
keeps it that way and never invokes `fn`. -/
theorem astep_noFn (identifier : String) (s : AwaitSt)
    (hr : noFnEntry s.reg identifier) (ht : s.timerActive = false)
    (i : AwaitIn) :
    noFnEntry (astep identifier s i).1.reg identifier ∧
    (astep identifier s i).1.timerActive = false ∧
    fnTok ∉ invokedOf (astep identifier s i).2 := by
  cases i with
  | timerFire =>
    simp only [astep, ht]
    exact ⟨hr, ht, by simp⟩
  | dispatchIn data =>
    cases hg : getProp s.reg identifier with
    | none =>
      simp only [astep]
      rw [callHandlers_absent s.reg identifier hg]
      exact ⟨hr, by simp [ht], by simp⟩
    | some h =>
      have hfn_h : fnTok ∉ h.map Prod.fst := by
        rw [noFnEntry, hg] at hr
        simpa using hr
      have hninv : fnTok ∉ invokedOf (runEntries identifier [] h).2 := by
        intro hmem
        exact hfn_h
          ((invokedOf_runEntries_sublist identifier [] h).subset hmem)
      simp only [astep]
      rw [callHandlers_present s.reg identifier h hg]
      refine ⟨?_, ?_, hninv⟩
      · rw [noFnEntry, getProp_setProp_self]
        cases hv : (runEntries identifier [] h).1 with
        | none => simp
        | some fin =>
          simp only [Option.getD_some]
          intro hmem
          exact hfn_h (by
            simpa using runEntries_callbacks_subset identifier [] h fin hv
              fnTok hmem)
      · by_cases hm : Ev.invoke fnTok ∈ (runEntries identifier [] h).2
        · simp [hm]
        · simp [hm, ht]

/-- `astep_noFn` closed under sequences: `fn` is never invoked again. -/
theorem runAwait_noFn (identifier : String) (trace : List AwaitIn) :
    ∀ s : AwaitSt, noFnEntry s.reg identifier → s.timerActive = false →
      fnTok ∉ invokedOf (runAwait identifier s trace).2 := by
  induction trace with
  | nil => intro s _ _; simp [runAwait]
  | cons i is ih =>
    intro s hr ht
    obtain ⟨h1, h2, h3⟩ := astep_noFn identifier s hr ht i
    simp only [runAwait, invokedOf, List.filterMap_append]
    rw [← invokedOf, ← invokedOf]
    intro hmem
    rcases List.mem_append.mp hmem with hm | hm
    · exact h3 hm
    · exact ih _ h1 h2 hm

/-- Claim C7 counterexample — `awaitOnce` on an identifier that already has
a finite-count entry (callback 1, attached first) does *not* resolve with
the payload of the next dispatch: the dispatch consumes the earlier entry,
and the splice-then-increment skip (claim C1) passes over the promise's
handler, leaving the future pending; only the dispatch after that resolves
it, with *its* payload. -/
theorem c7_counterexample :
    (runAwait "a" (awaitOnceInit (attachOnce HM.empty "a" 1).1 "a" 1)
      [AwaitIn.dispatchIn 5]).1.settled = none ∧
    (runAwait "a" (awaitOnceInit (attachOnce HM.empty "a" 1).1 "a" 1)
      [AwaitIn.dispatchIn 5, AwaitIn.dispatchIn 6]).1.settled =
      some (AwaitOutcome.resolved 6) := by
  decide

/-- Claim C7 (amended) — `awaitOnce(identifier, timeout)` with a positive
timeout, called with the shared registry in state `m`: the future resolves
with the payload of the next dispatch that invokes the pending handler —
when the identifier has no other entry at the time of the call, that is the
next dispatch for the identifier, whatever follows. If instead the timer
fires first, the future rejects with the timeout error carrying the
identifier; the pending entry is detached first (`fn`'s fresh reference
matches no other entry), so a dispatch arriving after the rejection cannot
invoke it or change the settled outcome. -/
theorem c7_awaitOnce_amended (m : HM) (identifier : String) (timeout : Nat)
    (h : 0 < timeout) :
    (getProp m identifier = none →
      ∀ (data : Nat) (rest : List AwaitIn),
        (runAwait identifier (awaitOnceInit m identifier timeout)
          (AwaitIn.dispatchIn data :: rest)).1.settled =
          some (AwaitOutcome.resolved data)) ∧
    (∀ rest : List AwaitIn,
      (runAwait identifier (awaitOnceInit m identifier timeout)
        (AwaitIn.timerFire :: rest)).1.settled =
        some (AwaitOutcome.rejected ("time out " ++ identifier))) ∧
    (noFnEntry m identifier →
      noFnEntry (astep identifier (awaitOnceInit m identifier timeout)
        AwaitIn.timerFire).1.reg identifier) ∧
    (noFnEntry m identifier →
      ∀ rest : List AwaitIn,
        fnTok ∉ invokedOf (runAwait identifier (astep identifier
          (awaitOnceInit m identifier timeout) AwaitIn.timerFire).1
          rest).2) := by
  have htt : (awaitOnceInit m identifier timeout).timerActive = true := by
    rw [awaitOnceInit]
    simp only [bne_iff_ne, ne_eq]
    omega
  have hset : (awaitOnceInit m identifier timeout).settled = none := rfl
  have hts : (astep identifier (awaitOnceInit m identifier timeout)
      AwaitIn.timerFire).1.settled =
      some (AwaitOutcome.rejected ("time out " ++ identifier)) := by
    simp [astep, htt, hset]
  have hta : (astep identifier (awaitOnceInit m identifier timeout)
      AwaitIn.timerFire).1.timerActive = false := by
    simp [astep, htt]
  have hregt : (astep identifier (awaitOnceInit m identifier timeout)
      AwaitIn.timerFire).1.reg =
      (detach (awaitOnceInit m identifier timeout).reg identifier fnTok).1 := by
    simp [astep, htt]
  have hkey : noFnEntry m identifier →
      noFnEntry (astep identifier (awaitOnceInit m identifier timeout)
        AwaitIn.timerFire).1.reg identifier := by
    intro hfn
    rw [hregt]
    cases hgm : getProp m identifier with
    | none =>
      have hreg : (awaitOnceInit m identifier timeout).reg =
          setProp m identifier (some [(fnTok, 1)]) := by
        rw [awaitOnceInit, attachOnce,
          attach_absent m identifier fnTok (some 1) hgm]
        rfl
      rw [hreg, detach_present _ identifier fnTok [(fnTok, 1)]
        (getProp_setProp_self _ _ _)]
      rw [detachRun_match_last identifier fnTok [] 1]
      simp [noFnEntry, getProp_setProp_self]
    | some hprior =>
      have hfn' : fnTok ∉ hprior.map Prod.fst := by
        rw [noFnEntry, hgm] at hfn
        simpa using hfn
      have hreg : (awaitOnceInit m identifier timeout).reg =
          setProp m identifier (some (hprior ++ [(fnTok, 1)])) := by
        rw [awaitOnceInit, attachOnce,
          attach_present m identifier fnTok (some 1) hprior hgm]
        rfl
      have hne : ∀ e ∈ hprior, e.1 ≠ fnTok := by
        intro e he hh
        exact hfn' (by rw [← hh]; exact List.mem_map_of_mem _ he)
      rw [hreg, detach_present _ identifier fnTok (hprior ++ [(fnTok, 1)])
        (getProp_setProp_self _ _ _)]
      rw [show detachRun identifier fnTok [] (hprior ++ [(fnTok, 1)]) =
          detachRun identifier fnTok hprior [(fnTok, 1)] by
        simpa using detachRun_append_last identifier fnTok 1 hprior [] hne]
      rw [detachRun_match_last identifier fnTok hprior 1]
      by_cases hpe : hprior.isEmpty
      · simp [hpe, noFnEntry, getProp_setProp_self]
      · simp [hpe, noFnEntry, getProp_setProp_self, hfn']
  refine ⟨?_, ?_, hkey, ?_⟩
  · intro hnone data rest
    have hreg : (awaitOnceInit m identifier timeout).reg =
        setProp m identifier (some [(fnTok, 1)]) := by
      rw [awaitOnceInit, attachOnce,
        attach_absent m identifier fnTok (some 1) hnone]
      rfl
    have hget : getProp (awaitOnceInit m identifier timeout).reg identifier =
        some [(fnTok, 1)] := by
      rw [hreg]; exact getProp_setProp_self _ _ _
    have hrunE : runEntries identifier [] [(fnTok, (1 : Int))] =
        (none, [Ev.lastRemoved identifier, Ev.invoke fnTok]) := by
      rw [runEntries_last_once identifier [] fnTok 1 (by norm_num)
        (by norm_num)]
      simp
    have hdisp : astep identifier (awaitOnceInit m identifier timeout)
        (AwaitIn.dispatchIn data) =
        (⟨setProp (awaitOnceInit m identifier timeout).reg identifier none,
          some (AwaitOutcome.resolved data), false⟩,
          [Ev.lastRemoved identifier, Ev.invoke fnTok]) := by
      simp only [astep]
      rw [callHandlers_present _ identifier [(fnTok, 1)] hget, hrunE, hset]
      simp
    simp only [runAwait]
    rw [hdisp]
    exact (runAwait_stable identifier rest _
      (getProp_setProp_self _ _ _) rfl).1
  · intro rest
    simp only [runAwait]
    exact runAwait_settled_frozen identifier rest _ _ hts
  · intro hfn rest
    exact runAwait_noFn identifier rest _ (hkey hfn) hta

/-- Witness for C7 (amended) at concrete states: with another identifier's
handler present but none for `"b"`, a dispatch with payload 5 resolves with
5; with a prior once-entry for `"a"` (callback 1), a timer firing first
rejects with `"time out a"` and a later dispatch never invokes `fn`. -/
theorem c7_awaitOnce_amended_witness :
    (runAwait "b" (awaitOnceInit (attachOnce HM.empty "other" 3).1 "b" 1)
      [AwaitIn.dispatchIn 5]).1.settled =
      some (AwaitOutcome.resolved 5) ∧
    (runAwait "a" (awaitOnceInit (attachOnce HM.empty "a" 1).1 "a" 1)
      [AwaitIn.timerFire]).1.settled =
      some (AwaitOutcome.rejected "time out a") ∧
    fnTok ∉ invokedOf (runAwait "a" (astep "a"
      (awaitOnceInit (attachOnce HM.empty "a" 1).1 "a" 1)
      AwaitIn.timerFire).1 [AwaitIn.dispatchIn 9]).2 := by
  refine ⟨?_, ?_, ?_⟩
  · exact (c7_awaitOnce_amended (attachOnce HM.empty "other" 3).1 "b" 1
      (by decide)).1 (by decide) 5 []
  · exact ((c7_awaitOnce_amended (attachOnce HM.empty "a" 1).1 "a" 1
      (by decide)).2.1 []).trans (by decide)
  · exact (c7_awaitOnce_amended (attachOnce HM.empty "a" 1).1 "a" 1
      (by decide)).2.2.2 (by decide) [AwaitIn.dispatchIn 9]

/-! ## `bootstrap(actions, events, defs, timeout)`

`bootstrap` computes the identifiers from
`_.union(_.keys(actions), events, defs)` that are missing from both remote
stores; when some are missing it first awaits a `def` for each
(`requireDefinitions`: one `makePromise` per identifier on the
definition-arrival registry, all with the same timeout, combined with
`Promise.all`), and only in the `.then` continuation runs `promises()`:
attach one `makePromise` per awaited event on the event registry, *then*
send one `action` packet per entry of `actions`, and resolve once every
event promise has resolved (`Promise.all`), rejecting if any single wait
times out.

The promise plumbing is embedded as a transition system driven by the
inbound happenings that can affect it: arrival of a `def` packet (which
dispatches the definition-arrival registry, consuming the pending
once-handler for that identifier), arrival of an `event` packet, and a
pending wait's timer firing. Erasing one occurrence per arrival mirrors the
once-handler consumption — including the `callHandlers` skip, under which a
single dispatch consumes only the first of two identical once-entries. The
single-threaded event loop runs the `.then` continuation before any later
message, so sending the actions is atomic with the last `def` arrival. -/

/-- `searchDefinitions(remoteDefinitions, identifier)` =
`_.compact([action store lookup, event store lookup])`. -/
def searchDefinitions (remoteAction remoteEvent : List Definition)
    (identifier : String) : List Definition :=
  [getDefinition remoteAction identifier,
    getDefinition remoteEvent identifier].reduceOption

/-- The `missingDefs` computation:
`_.uniq(_.union(_.keys(actions), events, defs).reduce(...))` keeping the
identifiers unknown to both remote stores. -/
def missingDefs (actions : List (String × Nat)) (events defs : List String)
    (remoteAction remoteEvent : List Definition) : List String :=
  uniqFirst ((uniqFirst (actions.map Prod.fst ++ events ++ defs)).foldl
    (fun cur identifier =>
      if (searchDefinitions remoteAction remoteEvent identifier).length > 0
      then cur
      else cur ++ [identifier]) [])

/-- The action packets `promises()` sends: one per entry of `actions`. -/
def sendActions (actions : List (String × Nat)) : List Packet :=
  actions.map (fun a => actionPacket a.1 a.2)

/-- Bootstrap's phase: awaiting `def`s (with the events still to be
awaited afterwards), awaiting events, resolved, or failed. -/
inductive BPhase
  | awaitingDefs (missing : List String) (events : List String)
  | awaitingEvents (pending : List String)
  | resolved
  | failed
deriving DecidableEq

/-- Inbound happenings that can affect a bootstrap in flight. -/
inductive BIn
  | defArrive (identifier : String)
  | eventArrive (identifier : String)
  | timeoutFire
deriving DecidableEq

/-- The initial phase and any immediately-sent packets: with no missing
definitions `promises()` runs at once; otherwise nothing is sent and the
`def` waits are pending. -/
def bootInit (actions : List (String × Nat)) (events defs : List String)
    (remoteAction remoteEvent : List Definition) : BPhase × List Packet :=
  let missing := missingDefs actions events defs remoteAction remoteEvent
  if missing.isEmpty then
    (if events.isEmpty then BPhase.resolved
      else BPhase.awaitingEvents events,
      sendActions actions)
  else (BPhase.awaitingDefs missing events, [])

/-- One step of the bootstrap in reaction to an inbound happening. -/
def bstep (actions : List (String × Nat)) :
    BPhase → BIn → BPhase × List Packet
  | BPhase.awaitingDefs missing evs, BIn.defArrive identifier =>
    let missing' := missing.erase identifier
    if missing'.isEmpty then
      (if evs.isEmpty then BPhase.resolved
        else BPhase.awaitingEvents evs,
        sendActions actions)
    else (BPhase.awaitingDefs missing' evs, [])
  | BPhase.awaitingDefs missing evs, BIn.eventArrive _ =>
    (BPhase.awaitingDefs missing evs, [])
  | BPhase.awaitingDefs _ _, BIn.timeoutFire => (BPhase.failed, [])
  | BPhase.awaitingEvents pending, BIn.eventArrive identifier =>
    let pending' := pending.erase identifier
    if pending'.isEmpty then (BPhase.resolved, [])
    else (BPhase.awaitingEvents pending', [])
  | BPhase.awaitingEvents pending, BIn.defArrive _ =>
    (BPhase.awaitingEvents pending, [])
  | BPhase.awaitingEvents _, BIn.timeoutFire => (BPhase.failed, [])
  | BPhase.resolved, _ => (BPhase.resolved, [])
  | BPhase.failed, _ => (BPhase.failed, [])

/-- Run a sequence of inbound happenings, accumulating sent packets. -/
def runB (actions : List (String × Nat)) :
    BPhase → List BIn → BPhase × List Packet
  | p, [] => (p, [])
  | p, i :: is =>
    let r := bstep actions p i
    let r' := runB actions r.1 is
    (r'.1, r.2 ++ r'.2)

/-- The event identifiers dispatched during a trace, in order. -/
def eventArrivals (trace : List BIn) : List String :=
  trace.filterMap (fun i =>
    match i with
    | BIn.eventArrive e => some e
    | _ => none)

/-- A phase with outstanding waits (each owning a live timer). -/
def bPending : BPhase → Bool
  | BPhase.awaitingDefs _ _ => true
  | BPhase.awaitingEvents _ => true
  | _ => false

@[simp]
theorem eventArrivals_nil : eventArrivals [] = [] :=
  rfl

@[simp]
theorem eventArrivals_def (identifier : String) (is : List BIn) :
    eventArrivals (BIn.defArrive identifier :: is) = eventArrivals is :=
  rfl

@[simp]
theorem eventArrivals_event (identifier : String) (is : List BIn) :
    eventArrivals (BIn.eventArrive identifier :: is) =
      identifier :: eventArrivals is :=
  rfl

@[simp]
theorem eventArrivals_timeout (is : List BIn) :
    eventArrivals (BIn.timeoutFire :: is) = eventArrivals is :=
  rfl

/-- A failed bootstrap stays failed and sends nothing. -/
theorem runB_failed (actions : List (String × Nat)) (trace : List BIn) :
    runB actions BPhase.failed trace = (BPhase.failed, []) := by
  induction trace with
  | nil => rfl
  | cons i is ih =>
    cases i <;> simp [runB, bstep, ih]

/-- A resolved bootstrap stays resolved and sends nothing. -/
theorem runB_resolved (actions : List (String × Nat)) (trace : List BIn) :
    runB actions BPhase.resolved trace = (BPhase.resolved, []) := by
  induction trace with
  | nil => rfl
  | cons i is ih =>
    cases i <;> simp [runB, bstep, ih]

/-- After the actions went out, nothing further is ever sent. -/
theorem runB_awaitingEvents_out (actions : List (String × Nat))
    (trace : List BIn) :
    ∀ pending : List String,
      (runB actions (BPhase.awaitingEvents pending) trace).2 = [] := by
  induction trace with
  | nil => intro pending; rfl
  | cons i is ih =>
    intro pending
    cases i with
    | defArrive identifier => simp [runB, bstep, ih]
    | eventArrive identifier =>
      by_cases he : (pending.erase identifier).isEmpty
      · simp [runB, bstep, he, runB_resolved]
      · simp [runB, bstep, he, ih]
    | timeoutFire => simp [runB, bstep, runB_failed]

/-- Multiset bookkeeping for one event arrival. -/
theorem count_le_erase_arrival (pending : List String)
    (identifier e : String) (arr : List String)
    (hle : (pending.erase identifier).count e ≤ arr.count e) :
    pending.count e ≤ (identifier :: arr).count e := by
  by_cases hid : identifier = e
  · subst hid
    have h1 := List.count_erase_self identifier pending
    rw [List.count_cons_self]
    omega
  · have h1 : List.count e (pending.erase identifier) =
        List.count e pending :=
      List.count_erase_of_ne (fun hh => hid hh.symm) pending
    rw [List.count_cons_of_ne (fun hh => hid hh.symm)]
    omega

/-- While awaiting events, resolution requires every pending event (with
multiplicity) to have arrived. -/
theorem runB_awaitingEvents_resolved (actions : List (String × Nat))
    (trace : List BIn) :
    ∀ pending : List String,
      (runB actions (BPhase.awaitingEvents pending) trace).1 =
        BPhase.resolved →
      ∀ e : String, pending.count e ≤ (eventArrivals trace).count e := by
  induction trace with
  | nil =>
    intro pending h e
    simp [runB] at h
  | cons i is ih =>
    intro pending h e
    cases i with
    | defArrive identifier =>
      simp only [runB, bstep] at h
      simpa using ih pending h e
    | eventArrive identifier =>
      by_cases he : (pending.erase identifier).isEmpty
      · have hz : (pending.erase identifier).count e = 0 := by
          rw [List.isEmpty_iff] at he
          simp [he]
        refine count_le_erase_arrival pending identifier e
          (eventArrivals is) (by omega)
      · simp only [runB, bstep, if_neg he] at h
        have := ih (pending.erase identifier) h e
        simpa using count_le_erase_arrival pending identifier e
          (eventArrivals is) this
    | timeoutFire =>
      simp only [runB, bstep] at h
      rw [runB_failed] at h
      cases h

/-- While awaiting definitions: nothing is sent until every missing
definition arrived, and at the step the last one arrives exactly the
action batch goes out; resolution afterwards still requires every awaited
event to arrive. -/
theorem runB_awaitingDefs (actions : List (String × Nat))
    (trace : List BIn) :
    ∀ (missing evs : List String), missing ≠ [] →
      ((runB actions (BPhase.awaitingDefs missing evs) trace).2 = [] ∨
        (runB actions (BPhase.awaitingDefs missing evs) trace).2 =
          sendActions actions) ∧
      ((runB actions (BPhase.awaitingDefs missing evs) trace).1 =
          BPhase.resolved →
        ∀ e : String, evs.count e ≤ (eventArrivals trace).count e) ∧
      (∀ mid ∈ missing, BIn.defArrive mid ∉ trace →
        (runB actions (BPhase.awaitingDefs missing evs) trace).2 = []) := by
  induction trace with
  | nil =>
    intro missing evs hm
    refine ⟨Or.inl rfl, ?_, fun _ _ _ => rfl⟩
    intro h
    simp [runB] at h
  | cons i is ih =>
    intro missing evs hm
    cases i with
    | defArrive identifier =>
      by_cases he : (missing.erase identifier).isEmpty
      · refine ⟨?_, ?_, ?_⟩
        · by_cases hev : evs.isEmpty
          · simp [runB, bstep, he, hev, runB_resolved]
          · simp [runB, bstep, he, hev, runB_awaitingEvents_out]
        · intro h e
          by_cases hev : evs.isEmpty
          · rw [List.isEmpty_iff] at hev
            simp [hev]
          · simp only [runB, bstep, if_pos he, if_neg hev] at h
            have := runB_awaitingEvents_resolved actions is evs h e
            simpa using this
        · intro mid hmid hnot
          exfalso
          have hne : mid ≠ identifier := by
            intro hh
            exact hnot (by rw [hh]; exact List.mem_cons_self _ _)
          have : mid ∈ missing.erase identifier :=
            (List.mem_erase_of_ne hne).mpr hmid
          rw [List.isEmpty_iff] at he
          rw [he] at this
          cases this
      · have hm' : missing.erase identifier ≠ [] := by
          intro hh
          rw [List.isEmpty_iff] at he
          exact he hh
        obtain ⟨ih1, ih2, ih3⟩ := ih (missing.erase identifier) evs hm'
        refine ⟨?_, ?_, ?_⟩
        · simpa [runB, bstep, he] using ih1
        · intro h e
          simp only [runB, bstep, if_neg he] at h
          simpa using ih2 h e
        · intro mid hmid hnot
          have hne : mid ≠ identifier := by
            intro hh
            exact hnot (by rw [hh]; exact List.mem_cons_self _ _)
          have hmid' : mid ∈ missing.erase identifier :=
            (List.mem_erase_of_ne hne).mpr hmid
          have hnot' : BIn.defArrive mid ∉ is := by
            intro hh
            exact hnot (List.mem_cons_of_mem _ hh)
          simpa [runB, bstep, he] using ih3 mid hmid' hnot'
    | eventArrive identifier =>
      obtain ⟨ih1, ih2, ih3⟩ := ih missing evs hm
      refine ⟨?_, ?_, ?_⟩
      · simpa [runB, bstep] using ih1
      · intro h e
        simp only [runB, bstep] at h
        have := ih2 h e
        simp only [eventArrivals_event]
        by_cases hid : identifier = e
        · subst hid
          rw [List.count_cons_self]
          omega
        · rw [List.count_cons_of_ne (fun hh => hid hh.symm)]
          omega
      · intro mid hmid hnot
        have hnot' : BIn.defArrive mid ∉ is := by
          intro hh
          exact hnot (List.mem_cons_of_mem _ hh)
        simpa [runB, bstep] using ih3 mid hmid hnot'
    | timeoutFire =>
      refine ⟨?_, ?_, ?_⟩
      · simp [runB, bstep, runB_failed]
      · intro h
        simp only [runB, bstep] at h
        rw [runB_failed] at h
        cases h
      · intro mid hmid hnot
        simp [runB, bstep, runB_failed]

/-- Concatenating traces runs them in sequence. -/
theorem runB_append (actions : List (String × Nat)) (t1 t2 : List BIn) :
    ∀ p : BPhase, runB actions p (t1 ++ t2) =
      ((runB actions (runB actions p t1).1 t2).1,
        (runB actions p t1).2 ++ (runB actions (runB actions p t1).1 t2).2) := by
  induction t1 with
  | nil => intro p; simp [runB]
  | cons i is ih =>
    intro p
    simp only [List.cons_append, runB, List.append_eq]
    rw [ih (bstep actions p i).1]
    simp

/-- A timeout firing while waits are pending fails the bootstrap for good. -/
theorem runB_timeout_fails (actions : List (String × Nat))
    (p : BPhase) (hp : bPending p = true) (trace : List BIn) :
    (runB actions p (BIn.timeoutFire :: trace)).1 = BPhase.failed := by
  cases p with
  | awaitingDefs missing evs => simp [runB, bstep, runB_failed]
  | awaitingEvents pending => simp [runB, bstep, runB_failed]
  | resolved => cases hp
  | failed => cases hp

/-- Claim C3 — a `bootstrap(actions, events, defs, timeout)` with at least
one required identifier missing from both remote stores: nothing is sent at
bootstrap time; no `action` packet is sent on any trace in which some
missing identifier's `def` never arrives; what is ever sent is nothing or
exactly one `action` packet per entry of `actions` (sent at the step the
last missing `def` arrives); the bootstrap resolves only after every
awaited event has been dispatched (with multiplicity); and a timeout firing
while any wait is pending fails the whole bootstrap permanently. -/
theorem c3_bootstrap (actions : List (String × Nat))
    (events defs : List String)
    (remoteAction remoteEvent : List Definition)
    (h : missingDefs actions events defs remoteAction remoteEvent ≠ []) :
    (bootInit actions events defs remoteAction remoteEvent =
      (BPhase.awaitingDefs
        (missingDefs actions events defs remoteAction remoteEvent) events,
        [])) ∧
    (∀ (trace : List BIn) (mid : String),
      mid ∈ missingDefs actions events defs remoteAction remoteEvent →
      BIn.defArrive mid ∉ trace →
      (runB actions
        (bootInit actions events defs remoteAction remoteEvent).1
        trace).2 = []) ∧
    (∀ trace : List BIn,
      (runB actions
        (bootInit actions events defs remoteAction remoteEvent).1
        trace).2 = [] ∨
      (runB actions
        (bootInit actions events defs remoteAction remoteEvent).1
        trace).2 = sendActions actions) ∧
    (∀ trace : List BIn,
      (runB actions
        (bootInit actions events defs remoteAction remoteEvent).1
        trace).1 = BPhase.resolved →
      ∀ e : String, events.count e ≤ (eventArrivals trace).count e) ∧
    (∀ trace trace' : List BIn,
      bPending (runB actions
        (bootInit actions events defs remoteAction remoteEvent).1
        trace).1 = true →
      (runB actions
        (bootInit actions events defs remoteAction remoteEvent).1
        (trace ++ BIn.timeoutFire :: trace')).1 = BPhase.failed) := by
  have hinit : bootInit actions events defs remoteAction remoteEvent =
      (BPhase.awaitingDefs
        (missingDefs actions events defs remoteAction remoteEvent) events,
        []) := by
    rw [bootInit]
    rw [if_neg (by
      intro hh
      exact h (List.isEmpty_iff.mp hh))]
  refine ⟨hinit, ?_, ?_, ?_, ?_⟩
  · intro trace mid hmid hnot
    rw [hinit]
    exact (runB_awaitingDefs actions trace _ events h).2.2 mid hmid hnot
  · intro trace
    rw [hinit]
    exact (runB_awaitingDefs actions trace _ events h).1
  · intro trace hres e
    rw [hinit] at hres
    exact (runB_awaitingDefs actions trace _ events h).2.1 hres e
  · intro trace trace' hp
    rw [hinit] at hp ⊢
    rw [runB_append]
    exact runB_timeout_fails actions _ hp trace'

/-- Witness for C3: `bootstrap({A: 1}, ["E1"], ["D1"], t)` against empty
remote stores — all three identifiers are missing; after two of the three
`def`s no action has been sent; after all three plus the `E1` event the
bootstrap is resolved with exactly the one action packet sent. -/
theorem c3_bootstrap_witness :
    (runB [("A", 1)] (bootInit [("A", 1)] ["E1"] ["D1"] [] []).1
      [BIn.defArrive "A", BIn.defArrive "E1"]).2 = [] ∧
    (runB [("A", 1)] (bootInit [("A", 1)] ["E1"] ["D1"] [] []).1
      [BIn.defArrive "A", BIn.defArrive "E1", BIn.defArrive "D1",
        BIn.eventArrive "E1"]) =
      (BPhase.resolved, [actionPacket "A" 1]) := by
  constructor
  · exact (c3_bootstrap [("A", 1)] ["E1"] ["D1"] [] [] (by decide)).2.1
      [BIn.defArrive "A", BIn.defArrive "E1"] "D1" (by decide) (by decide)
  · decide

end Rotonde
